import Mathlib

/-!
Verification of the block-semantic editing engine of the vue-md repository.

The engine consists of three JavaScript layers:
  * src/utils/DOMOperations.js       - low-level DOM and execCommand wrappers,
  * src/utils/MarkdownBlockModel.js  - markdown-aware block classification,
  * src/utils/MarkdownBlockEditor2.js - the Backspace/Enter/Tab state machine
    (this is the iteration imported by src/components/MarkdownEditor.vue).

The live DOM tree is embedded as the inductive type `DNode` below: every node
carries a numeric identity standing for the physical identity of a live DOM
node, element nodes carry an (upper-case, as in the DOM) tag name and a child
list, text nodes carry their character data.  Element style attributes are not
modelled: none of the verified claims concerns styled `span` wrappers, so the
inline-span branches of the source degenerate to their tag checks.

Selection state is a DOM `Range`: a pair of (container node id, offset)
boundary points, where an offset inside an element counts child nodes and an
offset inside a text node counts characters (the UTF-16 code-unit offsets of
the DOM are modelled as character offsets; the verified scenarios are ASCII).

Mutations issued through `document.execCommand` are native browser operations,
not repository code; their effects are modelled from the specification's
description of each command (see the doc comments of `outdentEffect`,
`formatBlockEffect`, `deleteSelectionEffect`, `insertFragEffect`,
`insertParagraphEffect`).  Every execCommand call is additionally recorded in
an explicit command trace so that "issues no structural edit command" is a
statement about the trace, not only about the resulting tree.
-/

/-- A live DOM node: a text node or an element with a tag and child nodes.
The `id` field models the physical identity of the live node. -/
inductive DNode where
  | text (id : Nat) (s : String)
  | elem (id : Nat) (tag : String) (children : List DNode)

namespace DNode

mutual

def beq : DNode → DNode → Bool
  | .text i s, .text j t => i == j && s == t
  | .elem i t cs, .elem j u ds => i == j && t == u && lbeq cs ds
  | _, _ => false

def lbeq : List DNode → List DNode → Bool
  | [], [] => true
  | c :: cs, d :: ds => beq c d && lbeq cs ds
  | _, _ => false

end

mutual

theorem beq_refl : ∀ n : DNode, beq n n = true
  | .text _ _ => by simp [beq]
  | .elem _ _ cs => by simp [beq, lbeq_refl cs]

theorem lbeq_refl : ∀ cs : List DNode, lbeq cs cs = true
  | [] => by simp [lbeq]
  | c :: cs => by simp [lbeq, beq_refl c, lbeq_refl cs]

end

mutual

theorem eq_of_beq : ∀ {a b : DNode}, beq a b = true → a = b
  | .text _ _, .text _ _ => by
      simp only [beq, Bool.and_eq_true, beq_iff_eq]
      intro h
      simp [h.1, h.2]
  | .text _ _, .elem _ _ _ => by simp [beq]
  | .elem _ _ _, .text _ _ => by simp [beq]
  | .elem _ _ cs, .elem _ _ ds => by
      simp only [beq, Bool.and_eq_true, beq_iff_eq]
      intro h
      simp [h.1.1, h.1.2, leq_of_lbeq h.2]

theorem leq_of_lbeq : ∀ {as bs : List DNode}, lbeq as bs = true → as = bs
  | [], [] => by simp
  | [], _ :: _ => by simp [lbeq]
  | _ :: _, [] => by simp [lbeq]
  | a :: as, b :: bs => by
      simp only [lbeq, Bool.and_eq_true]
      intro h
      simp [eq_of_beq h.1, leq_of_lbeq h.2]

end

instance : DecidableEq DNode := fun a b =>
  if h : beq a b = true then .isTrue (eq_of_beq h)
  else .isFalse (fun he => h (he ▸ beq_refl a))

/-- Node identity (models physical identity of the live DOM node). -/
def nid : DNode → Nat
  | .text i _ => i
  | .elem i _ _ => i

/-- Whether the node is an element node. -/
def isElem : DNode → Bool
  | .text _ _ => false
  | .elem _ _ _ => true

/-- The DOM tagName of an element node (text nodes have none). -/
def tag? : DNode → Option String
  | .text _ _ => none
  | .elem _ t _ => some t

/-- Child node list; empty for text nodes. -/
def children : DNode → List DNode
  | .text _ _ => []
  | .elem _ _ cs => cs

end DNode

mutual

/-- Induction principle for `DNode` with a membership hypothesis on children. -/
theorem DNode.induct (P : DNode → Prop)
    (ht : ∀ i s, P (.text i s))
    (he : ∀ i t cs, (∀ c ∈ cs, P c) → P (.elem i t cs)) : ∀ n, P n
  | .text i s => ht i s
  | .elem i t cs => he i t cs (DNode.inductList P ht he cs)

theorem DNode.inductList (P : DNode → Prop)
    (ht : ∀ i s, P (.text i s))
    (he : ∀ i t cs, (∀ c ∈ cs, P c) → P (.elem i t cs)) :
    ∀ cs : List DNode, ∀ c ∈ cs, P c
  | [] => by intro d hd; exact absurd hd (List.not_mem_nil d)
  | c :: cs => by
      intro d hd
      rcases List.mem_cons.mp hd with h | h
      · exact h ▸ DNode.induct P ht he c
      · exact DNode.inductList P ht he cs d h

end

/-! ### JavaScript string helpers

`String.trim` of JavaScript removes leading and trailing whitespace; it is
re-implemented over character lists because the verified scenarios only use
ASCII whitespace and the embedding must evaluate inside the kernel. -/

/-- Whitespace as recognized by JavaScript `String.prototype.trim` (ASCII part). -/
def jsIsSpace (c : Char) : Bool :=
  c = ' ' || c = '\t' || c = '\n' || c = '\r' || c = '\x0b' || c = '\x0c'

/-- JavaScript `String.prototype.trim`. -/
def jsTrim (s : String) : String :=
  ⟨((s.data.dropWhile jsIsSpace).reverse.dropWhile jsIsSpace).reverse⟩

/-- JavaScript `String.prototype.substring(0, n)` (character offsets). -/
def jsTake (s : String) (n : Nat) : String :=
  ⟨s.data.take n⟩

/-- JavaScript string length (character offsets; the scenarios are ASCII). -/
def jsLen (s : String) : Nat :=
  s.data.length

/-- JavaScript `String.prototype.toUpperCase` restricted to ASCII letters. -/
def jsToUpper (s : String) : String :=
  ⟨s.data.map Char.toUpper⟩

/-- JavaScript `String.prototype.toLowerCase` restricted to ASCII letters. -/
def jsToLower (s : String) : String :=
  ⟨s.data.map Char.toLower⟩

example : jsTrim "  ab " = "ab" := by decide
example : jsToLower "LI" = "li" := by decide

/-! ### Tree queries over the live DOM

All handler-level code in the source holds live node references; the embedding
identifies a node by its `nid` and resolves it against the editor tree.  The
editor element itself is the root `DNode` of the state (a non-block, non-
container wrapper, `DIV` in the component template). -/

namespace DTree

mutual

/-- First node (document order, self included) with the given identity. -/
def findNode (t : DNode) (i : Nat) : Option DNode :=
  match t with
  | .text j s => if j = i then some (.text j s) else none
  | .elem j tg cs => if j = i then some (.elem j tg cs) else findNodeList cs i

def findNodeList (cs : List DNode) (i : Nat) : Option DNode :=
  match cs with
  | [] => none
  | c :: cs => (findNode c i).orElse (fun _ => findNodeList cs i)

end

mutual

/-- Parent of the node with the given identity (none for the root or for an
identity absent from the tree; a detached live node has no parent either). -/
def findParent (t : DNode) (i : Nat) : Option DNode :=
  match t with
  | .text _ _ => none
  | .elem j tg cs =>
      if cs.any (fun c => c.nid = i) then some (.elem j tg cs)
      else findParentList cs i

def findParentList (cs : List DNode) (i : Nat) : Option DNode :=
  match cs with
  | [] => none
  | c :: cs => (findParent c i).orElse (fun _ => findParentList cs i)

end

mutual

/-- All node identities occurring in the tree (document order). -/
def idsOf (t : DNode) : List Nat :=
  match t with
  | .text j _ => [j]
  | .elem j _ cs => j :: idsOfList cs

def idsOfList (cs : List DNode) : List Nat :=
  match cs with
  | [] => []
  | c :: cs => idsOf c ++ idsOfList cs

end

mutual

/-- DOM `textContent`: concatenation of all descendant text data. -/
def textContent (t : DNode) : String :=
  match t with
  | .text _ s => s
  | .elem _ _ cs => textContentList cs

def textContentList (cs : List DNode) : String :=
  match cs with
  | [] => ""
  | c :: cs => textContent c ++ textContentList cs

end

mutual

/-- Descendant text nodes in document order, as (identity, data) pairs;
this is the `createTreeWalker(root, SHOW_TEXT)` traversal of the source. -/
def textNodes (t : DNode) : List (Nat × String) :=
  match t with
  | .text i s => [(i, s)]
  | .elem _ _ cs => textNodesList cs

def textNodesList (cs : List DNode) : List (Nat × String) :=
  match cs with
  | [] => []
  | c :: cs => textNodes c ++ textNodesList cs

end

/-- HTML escaping of character data, as done by the DOM serializer. -/
def escChar (c : Char) : String :=
  if c = '&' then "&amp;" else if c = '<' then "&lt;" else if c = '>' then "&gt;"
  else String.singleton c

def escape (s : String) : String :=
  String.join (s.data.map escChar)

mutual

/-- DOM serialization of one node (`outerHTML`); `BR` is a void element and
serializes without an end tag. -/
def outerHTML (t : DNode) : String :=
  match t with
  | .text _ s => escape s
  | .elem _ tg cs =>
      if tg = "BR" then "<br>"
      else "<" ++ jsToLower tg ++ ">" ++ innerHTMLList cs ++ "</" ++ jsToLower tg ++ ">"

def innerHTMLList (cs : List DNode) : String :=
  match cs with
  | [] => ""
  | c :: cs => outerHTML c ++ innerHTMLList cs

end

/-- DOM `innerHTML` of a node: serialization of its children. -/
def innerHTML (t : DNode) : String :=
  innerHTMLList t.children

mutual

/-- Replace every node with the given identity by the image under `f`
(top-down, no descent into a replaced node); with the physical-identity
reading of `nid` at most one node ever matches. -/
def updNode (t : DNode) (i : Nat) (f : DNode → DNode) : DNode :=
  if t.nid = i then f t
  else match t with
       | .text j s => .text j s
       | .elem j tg cs => .elem j tg (updNodeList cs i f)

def updNodeList (cs : List DNode) (i : Nat) (f : DNode → DNode) : List DNode :=
  match cs with
  | [] => []
  | c :: cs => updNode c i f :: updNodeList cs i f

end

/-- Index of the child with the given identity in a child list. -/
def childIdx (cs : List DNode) (i : Nat) : Option Nat :=
  match cs with
  | [] => none
  | c :: cs => if c.nid = i then some 0 else (childIdx cs i).map (· + 1)

/-- DOM `element.children.length` is the number of element children; the
`childNodes.length` used for caret offsets counts all children. -/
def childCount (t : DNode) : Nat :=
  t.children.length

/-- DOM `firstElementChild`. -/
def firstElementChild (t : DNode) : Option DNode :=
  t.children.find? (fun c => c.isElem)

/-- DOM `lastElementChild`. -/
def lastElementChild (t : DNode) : Option DNode :=
  t.children.reverse.find? (fun c => c.isElem)

/-- DOM `previousElementSibling` of the node with identity `i`. -/
def prevElemSibling (t : DNode) (i : Nat) : Option DNode :=
  match findParent t i with
  | none => none
  | some p =>
      match childIdx p.children i with
      | none => none
      | some k => (p.children.take k).reverse.find? (fun c => c.isElem)

/-- DOM `nextElementSibling` of the node with identity `i`. -/
def nextElemSibling (t : DNode) (i : Nat) : Option DNode :=
  match findParent t i with
  | none => none
  | some p =>
      match childIdx p.children i with
      | none => none
      | some k => (p.children.drop (k + 1)).find? (fun c => c.isElem)

/-- The chain from the node with identity `i` up to the root: the node itself
first, the root last.  Computed with a fuel bounded by the tree size (the
depth of any node is below the size). -/
def chainFuel (t : DNode) (i : Nat) : Nat → List DNode
  | 0 => []
  | fuel + 1 =>
      match findNode t i with
      | none => []
      | some n =>
          match findParent t i with
          | none => [n]
          | some p => n :: chainFuel t p.nid fuel

mutual

def nsize (t : DNode) : Nat :=
  match t with
  | .text _ _ => 1
  | .elem _ _ cs => 1 + nsizeList cs

def nsizeList (cs : List DNode) : Nat :=
  match cs with
  | [] => 0
  | c :: cs => nsize c + nsizeList cs

end

/-- The chain of a node and its ancestors, self first and root last. -/
def chain (t : DNode) (i : Nat) : List DNode :=
  chainFuel t i (nsize t)

/-- DOM `range.commonAncestorContainer` for boundary containers `a` and `b`:
the deepest node whose subtree holds both. -/
def commonAncestor (t : DNode) (a b : Nat) : Option DNode :=
  (chain t a).find? (fun n => (findNode n b).isSome)

end DTree

/-! ### Editor state and structural edit commands -/

/-- An HTML fragment before insertion: the structured form of the HTML strings
the engine passes to `insertHTML` (the source serializes and re-parses through
strings; the embedding passes the parsed shape directly). -/
inductive PNode where
  | ptext (s : String)
  | pelem (tag : String) (children : List PNode)

namespace PNode

mutual

def beq : PNode → PNode → Bool
  | .ptext s, .ptext t => s == t
  | .pelem t cs, .pelem u ds => t == u && lbeq cs ds
  | _, _ => false

def lbeq : List PNode → List PNode → Bool
  | [], [] => true
  | c :: cs, d :: ds => beq c d && lbeq cs ds
  | _, _ => false

end

mutual

theorem pbeq_refl : ∀ n : PNode, beq n n = true
  | .ptext _ => by simp [beq]
  | .pelem _ cs => by simp [beq, plbeq_refl cs]

theorem plbeq_refl : ∀ cs : List PNode, lbeq cs cs = true
  | [] => by simp [lbeq]
  | c :: cs => by simp [lbeq, pbeq_refl c, plbeq_refl cs]

end

mutual

theorem peq_of_pbeq : ∀ {a b : PNode}, beq a b = true → a = b
  | .ptext _, .ptext _ => by
      simp only [beq, beq_iff_eq]
      intro h
      simp [h]
  | .ptext _, .pelem _ _ => by simp [beq]
  | .pelem _ _, .ptext _ => by simp [beq]
  | .pelem _ cs, .pelem _ ds => by
      simp only [beq, Bool.and_eq_true, beq_iff_eq]
      intro h
      simp [h.1, pleq_of_plbeq h.2]

theorem pleq_of_plbeq : ∀ {as bs : List PNode}, lbeq as bs = true → as = bs
  | [], [] => by simp
  | [], _ :: _ => by simp [lbeq]
  | _ :: _, [] => by simp [lbeq]
  | a :: as, b :: bs => by
      simp only [lbeq, Bool.and_eq_true]
      intro h
      simp [peq_of_pbeq h.1, pleq_of_plbeq h.2]

end

instance : DecidableEq PNode := fun a b =>
  if h : beq a b = true then .isTrue (peq_of_pbeq h)
  else .isFalse (fun he => h (he ▸ pbeq_refl a))

end PNode

mutual

/-- Materialize a fragment node, drawing fresh identities from a counter
(models node creation by the native command; the DOM parser normalizes tag
names to upper case). -/
def PNode.build : PNode → Nat → (DNode × Nat)
  | .ptext s, n => (.text n s, n + 1)
  | .pelem tg cs, n =>
      let r := PNode.buildList cs (n + 1)
      (.elem n (jsToUpper tg) r.1, r.2)

def PNode.buildList : List PNode → Nat → (List DNode × Nat)
  | [], n => ([], n)
  | c :: cs, n =>
      let r := PNode.build c n
      let rs := PNode.buildList cs r.2
      (r.1 :: rs.1, rs.2)

end

mutual

/-- Forget identities: the shape a subtree takes when it is serialized with
`getInnerHTML` and re-parsed by `insertHTML` (nodes are re-created). -/
def DNode.toPNode : DNode → PNode
  | .text _ s => .ptext s
  | .elem _ tg cs => .pelem tg (DNode.toPNodeList cs)

def DNode.toPNodeList : List DNode → List PNode
  | [] => []
  | c :: cs => DNode.toPNode c :: DNode.toPNodeList cs

end

/-- One `document.execCommand` structural edit command, as recorded in the
command trace. -/
inductive Cmd where
  | insertHTML (frag : List PNode)
  | insertText (s : String)
  | delete
  | formatBlock (tag : String)
  | outdent
  | insertParagraph
deriving DecidableEq

/-- A DOM `Range`: start and end boundary points, each a container node
identity plus an offset (child index in an element, character offset in a
text node). -/
structure RangeS where
  sc : Nat
  so : Nat
  ec : Nat
  eo : Nat
deriving DecidableEq

/-- The full editing-surface state: the editor element (root of the live
tree), the current selection, a fresh-identity counter for nodes created by
native commands, and the trace of structural edit commands issued so far. -/
structure EState where
  tree : DNode
  sel : Option RangeS
  nextId : Nat
  trace : List Cmd
deriving DecidableEq

def RangeS.collapsed (r : RangeS) : Bool :=
  r.sc = r.ec && r.so = r.eo

def RangeS.caret (c o : Nat) : RangeS :=
  ⟨c, o, c, o⟩

/-! ### DOMOperations (src/utils/DOMOperations.js)

Pure reads resolve a live-node reference (an identity) against the current
tree.  The handlers only ever pass references obtained from the current tree
or selection, so an unresolvable identity (possible only in ill-formed states)
makes the operation a no-op. -/

namespace DOMOperations

open DTree

/-- Cursor context returned by `getCursorContext`. -/
structure Ctx where
  collapsed : Bool
  container : Nat
  offset : Nat
  endContainer : Nat
  endOffset : Nat
deriving DecidableEq

/-- `getCursorContext`: null when no selection range exists.  A live
`Selection` only references attached nodes, so a selection whose containers
are not in the tree also yields no context. -/
def getCursorContext (s : EState) : Option Ctx :=
  match s.sel with
  | none => none
  | some r =>
      if (findNode s.tree r.sc).isSome && (findNode s.tree r.ec).isSome then
        some ⟨r.collapsed, r.sc, r.so, r.ec, r.eo⟩
      else none

def getTextContent (s : EState) (i : Nat) : String :=
  match findNode s.tree i with
  | some n => textContent n
  | none => ""

def getInnerHTML (s : EState) (i : Nat) : String :=
  match findNode s.tree i with
  | some n => innerHTML n
  | none => ""

def getParentElement (s : EState) (i : Nat) : Option DNode :=
  findParent s.tree i

def getNextSibling (s : EState) (i : Nat) : Option DNode :=
  nextElemSibling s.tree i

def getPreviousSibling (s : EState) (i : Nat) : Option DNode :=
  prevElemSibling s.tree i

def getFirstChild (s : EState) (i : Nat) : Option DNode :=
  (findNode s.tree i).bind firstElementChild

def getLastChild (s : EState) (i : Nat) : Option DNode :=
  (findNode s.tree i).bind lastElementChild

/-- `getTagName` of an element reference (null reference gives null). -/
def getTagName (n : Option DNode) : Option String :=
  n.bind DNode.tag?

/-- `hasChildren`: whether `element.children` (element children) is nonempty. -/
def hasChildren (n : Option DNode) : Bool :=
  match n with
  | some m => m.children.any (fun c => c.isElem)
  | none => false

/-- Boundary point just before the node with identity `i`: its parent plus
the child index of `i`. -/
def boundaryBefore (t : DNode) (i : Nat) : Option (Nat × Nat) :=
  match findParent t i with
  | none => none
  | some p => (childIdx p.children i).map (fun k => (p.nid, k))

/-- Boundary point just after the node with identity `i`. -/
def boundaryAfter (t : DNode) (i : Nat) : Option (Nat × Nat) :=
  match findParent t i with
  | none => none
  | some p => (childIdx p.children i).map (fun k => (p.nid, k + 1))

/-- `selectNode`: the range spanning exactly the node. -/
def selectNode (s : EState) (i : Nat) : EState :=
  match boundaryBefore s.tree i with
  | some (p, k) => { s with sel := some ⟨p, k, p, k + 1⟩ }
  | none => s

def setCaretAfter (s : EState) (i : Nat) : EState :=
  match boundaryAfter s.tree i with
  | some (p, k) => { s with sel := some (RangeS.caret p k) }
  | none => s

def setCaretBefore (s : EState) (i : Nat) : EState :=
  match boundaryBefore s.tree i with
  | some (p, k) => { s with sel := some (RangeS.caret p k) }
  | none => s

/-- `setCaretAtStart`: `range.setStart(element, 0)` collapsed. -/
def setCaretAtStart (s : EState) (i : Nat) : EState :=
  { s with sel := some (RangeS.caret i 0) }

def setCaretAtEnd (s : EState) (i : Nat) : EState :=
  match findNode s.tree i with
  | some n => { s with sel := some (RangeS.caret i n.children.length) }
  | none => s

/-- The text-walking loop shared by `setCaretPosition`: find the text node
holding the target character position. -/
def caretPosLoop (nodes : List (Nat × String)) (currentPos pos : Nat) :
    Option (Nat × Nat) :=
  match nodes with
  | [] => none
  | (j, txt) :: rest =>
      if pos ≤ currentPos + jsLen txt then some (j, pos - currentPos)
      else caretPosLoop rest (currentPos + jsLen txt) pos

/-- `setCaretPosition(element, position)`: walk the element's text nodes and
place a collapsed caret at the cumulative character offset; when the walk
finds no target node the selection is left unchanged (source keeps the guard
`if (targetNode)`). -/
def setCaretPosition (s : EState) (i pos : Nat) : EState :=
  match findNode s.tree i with
  | none => s
  | some n =>
      match caretPosLoop (textNodes n) 0 pos with
      | some (j, o) => { s with sel := some (RangeS.caret j o) }
      | none => s

/-- Record one issued `execCommand` in the trace. -/
def pushCmd (s : EState) (c : Cmd) : EState :=
  { s with trace := s.trace ++ [c] }

/-- Caret position at the very end of a node (element: after all children;
text: after all characters). -/
def caretAtEndOf (n : DNode) : RangeS :=
  match n with
  | .text j str => RangeS.caret j (jsLen str)
  | .elem j _ cs => RangeS.caret j cs.length

/-- Modelled from the spec: the native `delete` command.  Deleting a range
inside one container removes the covered children (or characters); the only
cross-container ranges the engine ever issues bracket the gap between two
sibling elements, and deleting such a range removes the siblings strictly
between them and joins the two elements into the first, leaving the caret at
the merge boundary (spec section 4.3 Backspace case 5 and Scenario B). -/
def deleteSelectionEffect (s : EState) : EState :=
  match s.sel with
  | none => s
  | some r =>
      if r.collapsed then s
      else if r.sc = r.ec then
        match findNode s.tree r.sc with
        | some (.text j str) =>
            { s with
              tree := updNode s.tree j (fun _ =>
                .text j ⟨str.data.take r.so ++ str.data.drop r.eo⟩),
              sel := some (RangeS.caret r.sc r.so) }
        | some (.elem j _ _) =>
            { s with
              tree := updNode s.tree j (fun n =>
                .elem n.nid (n.tag?.getD "") (n.children.take r.so ++ n.children.drop r.eo)),
              sel := some (RangeS.caret r.sc r.so) }
        | none => s
      else
        match findNode s.tree r.sc, findNode s.tree r.ec,
              findParent s.tree r.sc, findParent s.tree r.ec with
        | some (.elem xj xt xcs), some (.elem _ _ ycs), some px, some py =>
            if px.nid = py.nid then
              match childIdx px.children r.sc, childIdx px.children r.ec with
              | some x, some y =>
                  if x < y then
                    let keepX := xcs.take r.so
                    let fromY := ycs.drop r.eo
                    let mergedX : DNode := .elem xj xt (keepX ++ fromY)
                    { s with
                      tree := updNode s.tree px.nid (fun p =>
                        .elem p.nid (p.tag?.getD "")
                          (p.children.take x ++ [mergedX] ++ p.children.drop (y + 1))),
                      sel := some (match keepX.getLast? with
                                   | some l => caretAtEndOf l
                                   | none => RangeS.caret xj 0) }
                  else s
              | _, _ => s
            else s
        | _, _, _, _ => s

/-- `deleteSelection` wrapper: records the command; the boolean result of
`execCommand` is modelled as "a selection existed". -/
def deleteSelection (s : EState) : Bool × EState :=
  (s.sel.isSome, pushCmd (deleteSelectionEffect s) .delete)

/-- Modelled from the spec: inserting a parsed HTML fragment at the caret
(a non-collapsed selection is first replaced).  In an element the fragment
nodes become children at the caret index; in a text node the text is split
around the fragment. -/
def insertFragEffect (s : EState) (frag : List PNode) : EState :=
  let s := if (s.sel.map RangeS.collapsed).getD true then s else deleteSelectionEffect s
  match s.sel with
  | none => s
  | some r =>
      match findNode s.tree r.sc with
      | some (.elem j _ _) =>
          let b := PNode.buildList frag s.nextId
          { s with
            tree := updNode s.tree j (fun n =>
              .elem n.nid (n.tag?.getD "")
                (n.children.take r.so ++ b.1 ++ n.children.drop r.so)),
            sel := some (RangeS.caret j (r.so + b.1.length)),
            nextId := b.2 }
      | some (.text j str) =>
          match findParent s.tree j with
          | some p =>
              match childIdx p.children j with
              | some k =>
                  let b := PNode.buildList frag s.nextId
                  let tailNode : DNode := .text b.2 ⟨str.data.drop r.so⟩
                  { s with
                    tree := updNode s.tree p.nid (fun q =>
                      .elem q.nid (q.tag?.getD "")
                        (q.children.take k ++
                          ([DNode.text j ⟨str.data.take r.so⟩] ++ b.1 ++ [tailNode]) ++
                          q.children.drop (k + 1))),
                    sel := some (RangeS.caret p.nid (k + 1 + b.1.length)),
                    nextId := b.2 + 1 }
              | none => s
          | none => s
      | none => s

def insertHTML (s : EState) (frag : List PNode) : Bool × EState :=
  (s.sel.isSome, pushCmd (insertFragEffect s frag) (.insertHTML frag))

/-- Modelled from the spec: the native `insertText` command types plain text
at the caret. -/
def insertTextEffect (s : EState) (str : String) : EState :=
  let s := if (s.sel.map RangeS.collapsed).getD true then s else deleteSelectionEffect s
  match s.sel with
  | none => s
  | some r =>
      match findNode s.tree r.sc with
      | some (.text j old) =>
          { s with
            tree := updNode s.tree j (fun _ =>
              .text j ⟨old.data.take r.so ++ str.data ++ old.data.drop r.so⟩),
            sel := some (RangeS.caret j (r.so + jsLen str)) }
      | some (.elem j _ _) =>
          { s with
            tree := updNode s.tree j (fun n =>
              .elem n.nid (n.tag?.getD "")
                (n.children.take r.so ++ [DNode.text s.nextId str] ++ n.children.drop r.so)),
            sel := some (RangeS.caret s.nextId (jsLen str)),
            nextId := s.nextId + 1 }
      | none => s

def insertText (s : EState) (str : String) : Bool × EState :=
  (s.sel.isSome, pushCmd (insertTextEffect s str) (.insertText str))

end DOMOperations

/-! ### MarkdownBlockModel (src/utils/MarkdownBlockModel.js) -/

namespace MarkdownBlockModel

open DTree

def BLOCK_TAGS : List String := ["P", "H1", "H2", "H3", "H4", "H5", "H6", "LI"]

def CONTAINER_TAGS : List String := ["BLOCKQUOTE", "OL", "UL", "PRE"]

def INLINE_TAGS : List String := ["STRONG", "EM", "B", "I", "CODE", "U", "S"]

/-- `isBlockElement(element)`: element exists and its tag is a block tag
(a text reference has no tagName, hence false). -/
def isBlockElement (n : Option DNode) : Bool :=
  match n with
  | some m => match m.tag? with
              | some t => BLOCK_TAGS.contains t
              | none => false
  | none => false

def isContainerElement (n : Option DNode) : Bool :=
  match n with
  | some m => match m.tag? with
              | some t => CONTAINER_TAGS.contains t
              | none => false
  | none => false

/-- `isInlineStyleElement`: tag membership; the `span[style]` clause of the
source degenerates because style attributes are not part of the model. -/
def isInlineStyleElement (n : Option DNode) : Bool :=
  match n with
  | some m => match m.tag? with
              | some t => INLINE_TAGS.contains t
              | none => false
  | none => false

/-- `getBlockType(element)`. -/
def getBlockType (n : Option DNode) : String :=
  match n with
  | none => "unknown"
  | some m =>
      match m.tag? with
      | some t =>
          if ["H1", "H2", "H3", "H4", "H5", "H6"].contains t then "heading"
          else if t = "BLOCKQUOTE" then "blockquote"
          else if t = "PRE" then "codeblock"
          else if t = "LI" then "listitem"
          else if t = "P" then "paragraph"
          else "unknown"
      | none => "unknown"

/-- The `while (prev)` loop of `getPreviousBlock`, over the chain of
previous element siblings (nearest first). -/
def prevBlockLoop : List DNode → Option DNode
  | [] => none
  | p :: rest =>
      if isBlockElement (some p) then some p
      else if isContainerElement (some p) then
        match lastElementChild p with
        | some lastChild =>
            if isBlockElement (some lastChild) then some lastChild else prevBlockLoop rest
        | none => prevBlockLoop rest
      else prevBlockLoop rest

/-- The `while (next)` loop of `getNextBlock`, symmetric to `prevBlockLoop`. -/
def nextBlockLoop : List DNode → Option DNode
  | [] => none
  | p :: rest =>
      if isBlockElement (some p) then some p
      else if isContainerElement (some p) then
        match firstElementChild p with
        | some firstChild =>
            if isBlockElement (some firstChild) then some firstChild else nextBlockLoop rest
        | none => nextBlockLoop rest
      else nextBlockLoop rest

/-- The element siblings preceding node `i`, nearest first. -/
def elemSiblingsBefore (t : DNode) (i : Nat) : List DNode :=
  match findParent t i with
  | none => []
  | some p =>
      match childIdx p.children i with
      | none => []
      | some k => ((p.children.take k).filter (fun c => c.isElem)).reverse

/-- The element siblings following node `i`, nearest first. -/
def elemSiblingsAfter (t : DNode) (i : Nat) : List DNode :=
  match findParent t i with
  | none => []
  | some p =>
      match childIdx p.children i with
      | none => []
      | some k => (p.children.drop (k + 1)).filter (fun c => c.isElem)

/-- `getPreviousBlock(block)`: container-transparent previous-block search. -/
def getPreviousBlock (s : EState) (i : Nat) : Option DNode :=
  prevBlockLoop (elemSiblingsBefore s.tree i)

/-- `getNextBlock(block)`: container-transparent next-block search. -/
def getNextBlock (s : EState) (i : Nat) : Option DNode :=
  nextBlockLoop (elemSiblingsAfter s.tree i)

/-- `isBlockEmpty(block)`: no block, or trimmed text content empty, or inner
HTML exactly the placeholder line break. -/
def isBlockEmpty (n : Option DNode) : Bool :=
  match n with
  | none => true
  | some b => jsTrim (textContent b) = "" || innerHTML b = "<br>"

/-- Result of `isAtBlockStart`. -/
structure AtStart where
  atStart : Bool
  blockElement : Option Nat
deriving DecidableEq

/-- The text-accumulating walk of `getTextBeforeCursor`. -/
def textBeforeLoop (nodes : List (Nat × String)) (container offset : Nat) : String :=
  match nodes with
  | [] => ""
  | (j, txt) :: rest =>
      if j = container then jsTake txt offset
      else txt ++ textBeforeLoop rest container offset

/-- `getTextBeforeCursor(blockElement, container, offset)`. -/
def getTextBeforeCursor (s : EState) (blockElement : DNode) (container offset : Nat) :
    String :=
  let isElemContainer := match findNode s.tree container with
                         | some n => n.isElem
                         | none => false
  if isElemContainer && offset == 0 then ""
  else jsTrim (textBeforeLoop (textNodes blockElement) container offset)

/-- First block element strictly below the editor root in an ancestor chain
(the `while (element && element !== this.editor)` walk). -/
def firstBlockInChain (rootId : Nat) : List DNode → Option DNode
  | [] => none
  | n :: rest =>
      if n.nid = rootId then none
      else if isBlockElement (some n) then some n
      else firstBlockInChain rootId rest

/-- `isAtBlockStart(container, offset)`. -/
def isAtBlockStart (s : EState) (container offset : Nat) : AtStart :=
  let cnode := findNode s.tree container
  let quickNegative :=
    match cnode with
    | some (.text _ str) =>
        offset != 0 && (jsTake str offset).data.any (fun c => !(c == ' ' || c == '\n'))
    | _ => false
  if quickNegative then ⟨false, none⟩
  else
    let startId : Option Nat :=
      match cnode with
      | some (.text _ _) => (findParent s.tree container).map DNode.nid
      | some (.elem _ _ _) => some container
      | none => none
    match startId with
    | none => ⟨false, none⟩
    | some sid =>
        match firstBlockInChain s.tree.nid (chain s.tree sid) with
        | some blockE =>
            ⟨getTextBeforeCursor s blockE container offset = "", some blockE.nid⟩
        | none => ⟨false, none⟩

/-- The accumulator walk of `isAtBlockEnd`: total text length and the
cumulative position of the cursor container. -/
def blockEndScan (nodes : List (Nat × String)) (container offset total cur : Nat) :
    Nat × Nat :=
  match nodes with
  | [] => (total, cur)
  | (j, txt) :: rest =>
      let cur := if j = container then total + offset else cur
      blockEndScan rest container offset (total + jsLen txt) cur

/-- `isAtBlockEnd(element)`: collapsed cursor sits at the very end of the
element's text. -/
def isAtBlockEnd (s : EState) (i : Nat) : Bool :=
  match DOMOperations.getCursorContext s with
  | none => false
  | some context =>
      if ¬ context.collapsed then false
      else
        let nodes := match findNode s.tree i with
                     | some n => textNodes n
                     | none => []
        let r := blockEndScan nodes context.container context.offset 0 0
        r.2 = r.1

/-- The parent walk of `isAtEndOfInlineElement`, over the ancestor chain of
the cursor's text node. -/
def inlineEndLoop (rootId container : Nat) : List DNode → Bool
  | [] => false
  | par :: rest =>
      if par.nid = rootId then false
      else if isInlineStyleElement (some par) then
        match (textNodes par).getLast? with
        | some (j, _) => j = container
        | none => false
      else if isBlockElement (some par) then false
      else inlineEndLoop rootId container rest

/-- `isAtEndOfInlineElement()`. -/
def isAtEndOfInlineElement (s : EState) : Bool :=
  match DOMOperations.getCursorContext s with
  | none => false
  | some context =>
      if ¬ context.collapsed then false
      else
        match findNode s.tree context.container with
        | some (.text _ str) =>
            if context.offset ≠ jsLen str then false
            else
              match findParent s.tree context.container with
              | some p => inlineEndLoop s.tree.nid context.container (chain s.tree p.nid)
              | none => false
        | _ => false

/-- `extractInlineContent(element)`: a deep clone with block-styled spans
unwrapped; style attributes are outside the model, so the clone's children
are returned unchanged (the source returns them serialized as HTML). -/
def extractInlineContent (b : DNode) : List DNode :=
  b.children

/-- `extractTextContent(htmlContent)`: text content of the re-parsed
fragment. -/
def extractTextContent (frag : List DNode) : String :=
  textContentList frag

/-- Result of `findEmptyBlock` and `findBlockInContainer`. -/
structure FoundBlock where
  block : Nat
  container : Option Nat
deriving DecidableEq

/-- `findEmptyBlock(container)`: innermost enclosing block, if empty and
either styled or inside a container. -/
def findEmptyBlock (s : EState) (containerRef : Nat) : Option FoundBlock :=
  let startId : Option Nat :=
    match findNode s.tree containerRef with
    | some (.text _ _) => (findParent s.tree containerRef).map DNode.nid
    | some (.elem _ _ _) => some containerRef
    | none => none
  match startId with
  | none => none
  | some sid =>
      match firstBlockInChain s.tree.nid (chain s.tree sid) with
      | none => none
      | some foundBlock =>
          let parent := findParent s.tree foundBlock.nid
          let containerElement := if isContainerElement parent then parent else none
          if isBlockEmpty (some foundBlock) then
            if getBlockType (some foundBlock) ≠ "paragraph" ∨ containerElement.isSome then
              some ⟨foundBlock.nid, containerElement.map DNode.nid⟩
            else none
          else none

/-- The upward walk of `findBlockInContainer`: remembers the first block and
keeps climbing until some block ancestor has a container parent. -/
def blockInContainerLoop (rootId : Nat) (found : Option Nat) :
    List DNode → Option FoundBlock
  | [] => none
  | cur :: rest =>
      if cur.nid = rootId then none
      else if isBlockElement (some cur) then
        let found := match found with
                     | none => some cur.nid
                     | some f => some f
        match rest.head? with
        | some par =>
            if isContainerElement (some par) then
              (found.map (fun f => ⟨f, some par.nid⟩))
            else blockInContainerLoop rootId found rest
        | none => blockInContainerLoop rootId found rest
      else blockInContainerLoop rootId found rest

/-- `findBlockInContainer(container)`. -/
def findBlockInContainer (s : EState) (containerRef : Nat) : Option FoundBlock :=
  let startId : Option Nat :=
    match findNode s.tree containerRef with
    | some (.text _ _) => (findParent s.tree containerRef).map DNode.nid
    | some (.elem _ _ _) => some containerRef
    | none => none
  match startId with
  | none => none
  | some sid => blockInContainerLoop s.tree.nid none (chain s.tree sid)

end MarkdownBlockModel

namespace DOMOperations

open DTree MarkdownBlockModel

/-- Modelled from the spec: native `formatBlock` converts the block holding
the caret into the given tag, keeping its content ("formatting to paragraph
then guarantees a markup-legal leaf type", spec section 4.3). -/
def formatBlockEffect (s : EState) (tg : String) : EState :=
  match s.sel with
  | none => s
  | some r =>
      match firstBlockInChain s.tree.nid (chain s.tree r.sc) with
      | some b =>
          { s with tree := updNode s.tree b.nid (fun n =>
              .elem n.nid (jsToUpper tg) n.children) }
      | none => s

def formatBlock (s : EState) (tg : String) : Bool × EState :=
  (s.sel.isSome, pushCmd (formatBlockEffect s tg) (.formatBlock tg))

/-- Modelled from the spec: native `outdent` removes one container level
around the caret's block — the block moves up next to its container,
siblings before it stay in the container, siblings after it are closed into
a fresh container of the same kind, and a container emptied by the move
disappears ("outdent already removes one level of container nesting" and
"outdent naturally relocates the block and leaves the remaining siblings in
a separately-closed container tag", spec section 4.3). -/
def outdentEffect (s : EState) : EState :=
  match s.sel with
  | none => s
  | some r =>
      match firstBlockInChain s.tree.nid (chain s.tree r.sc) with
      | none => s
      | some b =>
          match findParent s.tree b.nid with
          | none => s
          | some c =>
              if ¬ isContainerElement (some c) then s
              else
                match findParent s.tree c.nid, childIdx c.children b.nid with
                | some g, some k =>
                    let before := c.children.take k
                    let after := c.children.drop (k + 1)
                    let keepC : List DNode :=
                      if before.isEmpty then [] else [.elem c.nid (c.tag?.getD "") before]
                    let tailC : List DNode :=
                      if after.isEmpty then [] else [.elem s.nextId (c.tag?.getD "") after]
                    match childIdx g.children c.nid with
                    | some gk =>
                        { s with
                          tree := updNode s.tree g.nid (fun p =>
                            .elem p.nid (p.tag?.getD "")
                              (p.children.take gk ++ keepC ++ [b] ++ tailC ++
                               p.children.drop (gk + 1))),
                          nextId := if after.isEmpty then s.nextId else s.nextId + 1 }
                    | none => s
                | _, _ => s

def outdent (s : EState) : Bool × EState :=
  (s.sel.isSome, pushCmd (outdentEffect s) .outdent)

/-- Modelled from the spec: native `insertParagraph` creates a fresh empty
paragraph (with the placeholder line break) at the collapsed caret and puts
the caret inside it. -/
def insertParagraphEffect (s : EState) : EState :=
  match s.sel with
  | none => s
  | some r =>
      match findNode s.tree r.sc with
      | some (.elem j _ _) =>
          { s with
            tree := updNode s.tree j (fun n =>
              .elem n.nid (n.tag?.getD "")
                (n.children.take r.so ++
                 [DNode.elem s.nextId "P" [DNode.elem (s.nextId + 1) "BR" []]] ++
                 n.children.drop r.so)),
            sel := some (RangeS.caret s.nextId 0),
            nextId := s.nextId + 2 }
      | _ => s

def insertParagraph (s : EState) : Bool × EState :=
  (s.sel.isSome, pushCmd (insertParagraphEffect s) .insertParagraph)

/-- `convertBlockUsingFormatBlock(blockElement, newTag)` of DOMOperations:
caret to the block start, outdent, then formatBlock. -/
def convertBlockUsingFormatBlock (s : EState) (i : Nat) (newTag : String) :
    Bool × EState :=
  let s := setCaretAtStart s i
  let s := (outdent s).2
  formatBlock s newTag

/-- `convertBlockToParagraph(blockElement)` of DOMOperations. -/
def convertBlockToParagraph (s : EState) (i : Nat) : Bool × EState :=
  convertBlockUsingFormatBlock s i "p"

end DOMOperations

/-! ### MarkdownBlockEditor (src/utils/MarkdownBlockEditor2.js) -/

namespace MarkdownBlockEditor

open DTree MarkdownBlockModel

/-- `convertBlockToParagraph(blockElement)`: caret to the block start, then
outdent, then formatBlock to paragraph; always reports handled. -/
def convertBlockToParagraph (s : EState) (blockElement : Nat) : Bool × EState :=
  let s := DOMOperations.setCaretAtStart s blockElement
  let s := (DOMOperations.outdent s).2
  let s := (DOMOperations.formatBlock s "p").2
  (true, s)

/-- `mergeBlocks(targetBlock, sourceBlock)`: append the source block's
extracted plain text at the end of the target, delete the source block, and
restore the caret at the original merge boundary. -/
def mergeBlocks (s : EState) (targetBlock sourceBlock : Nat) : Bool × EState :=
  let targetPosition := jsLen (DOMOperations.getTextContent s targetBlock)
  let sourceContent :=
    match findNode s.tree sourceBlock with
    | some b => extractTextContent (extractInlineContent b)
    | none => ""
  let s := DOMOperations.setCaretPosition s targetBlock targetPosition
  let s := if jsTrim sourceContent ≠ "" then (DOMOperations.insertText s sourceContent).2 else s
  let s := DOMOperations.selectNode s sourceBlock
  let s := (DOMOperations.deleteSelection s).2
  let s := DOMOperations.setCaretPosition s targetBlock targetPosition
  (true, s)

/-- `mergeAdjacentContainers(referenceElement, preserveSplit)`: coalesce the
two same-tag containers around a root-level empty paragraph.  A reference
that is no longer in the tree is a detached live node: it has no siblings,
so the source falls through without mutating; the embedding returns the
state unchanged in that case. -/
def mergeAdjacentContainers (s : EState) (referenceElement : Nat)
    (preserveSplit : Bool) : EState :=
  if preserveSplit then s
  else
    match findNode s.tree referenceElement with
    | none => s
    | some current =>
        if DOMOperations.getTagName (some current) ≠ some "P"
            ∨ isContainerElement (DOMOperations.getParentElement s referenceElement)
            ∨ ¬ isBlockEmpty (some current) then s
        else
          match DOMOperations.getPreviousSibling s referenceElement,
                DOMOperations.getNextSibling s referenceElement with
          | some prevSibling, some nextSibling =>
              if isContainerElement (some prevSibling)
                  ∧ isContainerElement (some nextSibling)
                  ∧ DOMOperations.getTagName (some prevSibling)
                      = DOMOperations.getTagName (some nextSibling) then
                let originalLastChild := lastElementChild prevSibling
                -- while (getFirstChild(nextSibling)) prevSibling.appendChild(...):
                -- the element children of the second container move, in order,
                -- to the end of the first (direct tree splice in the source)
                let moved := nextSibling.children.filter (fun c => c.isElem)
                let t1 := updNode s.tree nextSibling.nid (fun n =>
                  .elem n.nid (n.tag?.getD "") (n.children.filter (fun c => !c.isElem)))
                let t2 := updNode t1 prevSibling.nid (fun n =>
                  .elem n.nid (n.tag?.getD "") (n.children ++ moved))
                let s := { s with tree := t2 }
                let s := DOMOperations.selectNode s referenceElement
                let s := (DOMOperations.deleteSelection s).2
                let s := DOMOperations.selectNode s nextSibling.nid
                let s := (DOMOperations.deleteSelection s).2
                match originalLastChild with
                | some olc =>
                    if isBlockElement (some olc) then
                      let position := jsLen (DOMOperations.getTextContent s olc.nid)
                      DOMOperations.setCaretPosition s olc.nid position
                    else s
                | none => s
              else s
          | _, _ => s

/-- `handleBackspace()`. -/
def handleBackspace (s : EState) : Bool × EState :=
  match DOMOperations.getCursorContext s with
  | none => (false, s)
  | some context =>
      if ¬ context.collapsed then (false, s)
      else
        let blockStart := isAtBlockStart s context.container context.offset
        if ¬ blockStart.atStart then (false, s)
        else
          match blockStart.blockElement with
          | none => (false, s)  -- unreachable: atStart implies a block was found
          | some blockElement =>
              let blockNode := findNode s.tree blockElement
              let blockType := getBlockType blockNode
              let container := DOMOperations.getParentElement s blockElement
              let isInContainer := isContainerElement container
              let isEmpty := isBlockEmpty blockNode
              let isStyledBlock := blockType ≠ "paragraph"
              -- special case: empty paragraph between containers - merge them
              if DOMOperations.getTagName blockNode = some "P" ∧ ¬ isInContainer ∧ isEmpty then
                match DOMOperations.getPreviousSibling s blockElement,
                      DOMOperations.getNextSibling s blockElement with
                | some prevSibling, some nextSibling =>
                    if isContainerElement (some prevSibling)
                        ∧ isContainerElement (some nextSibling) then
                      if prevSibling.tag? = some "BLOCKQUOTE"
                          ∧ nextSibling.tag? = some "BLOCKQUOTE" then
                        -- special handling for blockquotes
                        let lastChild := DOMOperations.getLastChild s prevSibling.nid
                        let s := match lastChild with
                                 | some lc => DOMOperations.setCaretAfter s lc.nid
                                 | none => s
                        let s := (DOMOperations.insertParagraph s).2
                        let frag := match findNode s.tree nextSibling.nid with
                                    | some n => DNode.toPNodeList n.children
                                    | none => []
                        let s := (DOMOperations.insertHTML s frag).2
                        -- range from before the empty paragraph to after the
                        -- second container, then delete
                        let s :=
                          match DOMOperations.boundaryBefore s.tree blockElement,
                                DOMOperations.boundaryAfter s.tree nextSibling.nid with
                          | some (p1, k1), some (p2, k2) =>
                              { s with sel := some ⟨p1, k1, p2, k2⟩ }
                          | _, _ => s
                        let s := (DOMOperations.deleteSelection s).2
                        let s := match lastChild with
                                 | some lc => DOMOperations.setCaretAfter s lc.nid
                                 | none => s
                        (true, s)
                      else
                        -- for lists: simple delete works
                        let lastChildOfPrev := DOMOperations.getLastChild s prevSibling.nid
                        let firstChildOfNext := DOMOperations.getFirstChild s nextSibling.nid
                        let s :=
                          match lastChildOfPrev, firstChildOfNext with
                          | some a, some b =>
                              (match DOMOperations.boundaryAfter s.tree a.nid,
                                     DOMOperations.boundaryBefore s.tree b.nid with
                               | some (p1, k1), some (p2, k2) =>
                                   { s with sel := some ⟨p1, k1, p2, k2⟩ }
                               | _, _ => s)
                          | _, _ =>
                              (match DOMOperations.boundaryAfter s.tree prevSibling.nid,
                                     DOMOperations.boundaryBefore s.tree nextSibling.nid with
                               | some (p1, k1), some (p2, k2) =>
                                   { s with sel := some ⟨p1, k1, p2, k2⟩ }
                               | _, _ => s)
                        let s := (DOMOperations.deleteSelection s).2
                        (true, s)
                    else (false, s)
                | _, _ => (false, s)
              else if (isEmpty ∨ isStyledBlock) ∧ isBlockElement blockNode then
                convertBlockToParagraph s blockElement
              else if blockType = "paragraph" ∧ ¬ isInContainer then
                match getPreviousBlock s blockElement with
                | none => (false, s)
                | some previousBlock =>
                    let previousContainer := DOMOperations.getParentElement s previousBlock.nid
                    let isCrossContainer := isContainerElement previousContainer
                        ∧ ¬ isContainerElement container
                    if isCrossContainer then
                      let s :=
                        if ¬ isBlockEmpty blockNode then
                          (mergeBlocks s previousBlock.nid blockElement).2
                        else
                          let s := DOMOperations.selectNode s blockElement
                          let s := (DOMOperations.deleteSelection s).2
                          DOMOperations.setCaretPosition s previousBlock.nid
                            (jsLen (DOMOperations.getTextContent s previousBlock.nid))
                      let s := mergeAdjacentContainers s previousBlock.nid false
                      (true, s)
                    else
                      let result := mergeBlocks s previousBlock.nid blockElement
                      let s := result.2
                      -- clean up empty containers
                      let blockContainer := DOMOperations.getParentElement s blockElement
                      let s :=
                        if isContainerElement blockContainer
                            ∧ ¬ DOMOperations.hasChildren blockContainer then
                          match blockContainer with
                          | some bc =>
                              let s := DOMOperations.selectNode s bc.nid
                              (DOMOperations.deleteSelection s).2
                          | none => s
                        else s
                      let s := mergeAdjacentContainers s previousBlock.nid false
                      (result.1, s)
              else (false, s)

/-- Identity of `context.range.commonAncestorContainer`; total because
`getCursorContext` only yields attached boundary containers. -/
def commonAncestorId (s : EState) (context : DOMOperations.Ctx) : Nat :=
  ((commonAncestor s.tree context.container context.endContainer).map DNode.nid).getD
    context.container

/-- `handleEnter()`. -/
def handleEnter (s : EState) : Bool × EState :=
  match DOMOperations.getCursorContext s with
  | none => (false, s)
  | some context =>
      let container := commonAncestorId s context
      match findEmptyBlock s container with
      | some emptyBlock =>
          if emptyBlock.container.isSome then
            -- unified conversion for all container exits
            convertBlockToParagraph s emptyBlock.block
          else
            -- reset styled block to paragraph
            convertBlockToParagraph s emptyBlock.block
      | none =>
          if isAtEndOfInlineElement s then
            DOMOperations.insertHTML s [PNode.pelem "p" [PNode.pelem "br" []]]
          else
            match findBlockInContainer s container with
            | some blockInContainer =>
                if ¬ isBlockEmpty (findNode s.tree blockInContainer.block) then
                  if isAtBlockEnd s blockInContainer.block then
                    let newBlockTag :=
                      jsToLower (((findNode s.tree blockInContainer.block).bind
                        DNode.tag?).getD "")
                    let s := DOMOperations.setCaretAfter s blockInContainer.block
                    let s := (DOMOperations.insertHTML s
                      [PNode.pelem newBlockTag [PNode.pelem "br" []]]).2
                    let s :=
                      match DOMOperations.getNextSibling s blockInContainer.block with
                      | some newBlock => DOMOperations.setCaretAtStart s newBlock.nid
                      | none => s
                    (true, s)
                  else (false, s)
                else (false, s)
            | none => (false, s)

/-- `handleTab()`: four non-breaking spaces at the caret. -/
def handleTab (s : EState) : Bool × EState :=
  let r := DOMOperations.insertHTML s [PNode.ptext "    "]
  (true, r.2)

end MarkdownBlockEditor

/-! ### Spec-side definitions and scenario states

The states below are the concrete scenarios named by the specification
(section 8).  Node identities are arbitrary distinct numbers; `nextId` starts
past all of them. -/

open DTree MarkdownBlockModel MarkdownBlockEditor in
/-- Scenario A of the spec: `blockquote(p("abc"), p("def"))`, caret collapsed
at the start of "def" (text node 5, offset 0). -/
def stateScenarioA : EState :=
  { tree := .elem 0 "DIV" [.elem 1 "BLOCKQUOTE"
      [.elem 2 "P" [.text 3 "abc"], .elem 4 "P" [.text 5 "def"]]],
    sel := some (RangeS.caret 5 0), nextId := 100, trace := [] }

/-- Scenario E of the spec: `ul(li("a"), li(""))`, caret in the empty last
item (the placeholder `<br>` is node 5). -/
def stateScenarioE : EState :=
  { tree := .elem 0 "DIV" [.elem 1 "UL"
      [.elem 2 "LI" [.text 3 "a"], .elem 4 "LI" [.elem 5 "BR" []]]],
    sel := some (RangeS.caret 4 0), nextId := 100, trace := [] }

/-- Scenario B of the spec with blockquotes: `blockquote(p1), p2(empty),
blockquote(p3)`, caret in the empty paragraph. -/
def stateScenarioB : EState :=
  { tree := .elem 0 "DIV" [.elem 1 "BLOCKQUOTE" [.elem 2 "P" [.text 3 "x"]],
      .elem 4 "P" [.elem 5 "BR" []],
      .elem 6 "BLOCKQUOTE" [.elem 7 "P" [.text 8 "y"]]],
    sel := some (RangeS.caret 4 0), nextId := 100, trace := [] }

/-- The list form of the coalescing scenario: `ul(li "x"), p(empty),
ul(li "y")`, caret in the empty paragraph. -/
def stateListCoalesce : EState :=
  { tree := .elem 0 "DIV" [.elem 1 "UL" [.elem 2 "LI" [.text 3 "x"]],
      .elem 4 "P" [.elem 5 "BR" []],
      .elem 6 "UL" [.elem 7 "LI" [.text 8 "y"]]],
    sel := some (RangeS.caret 4 0), nextId := 100, trace := [] }

/-- A non-empty blockquote paragraph with the caret at its end, for the
Enter new-sibling rule. -/
def stateEnterSibling : EState :=
  { tree := .elem 0 "DIV" [.elem 1 "BLOCKQUOTE" [.elem 2 "P" [.text 3 "ab"]]],
    sel := some (RangeS.caret 3 2), nextId := 100, trace := [] }

/-- A state with no selection range at all. -/
def stateNoSelection : EState :=
  { tree := .elem 0 "DIV" [.elem 1 "P" [.text 2 "hi"]],
    sel := none, nextId := 100, trace := [] }

/-- A nested-list tree: the previous element sibling of the paragraph is a
container whose last element child is another container, not a block. -/
def stateNestedList : EState :=
  { tree := .elem 0 "DIV" [.elem 1 "UL"
      [.elem 2 "LI" [.text 3 "a"], .elem 4 "UL" [.elem 5 "LI" [.text 6 "b"]]],
      .elem 7 "P" [.text 8 "x"]],
    sel := none, nextId := 100, trace := [] }

open DTree MarkdownBlockModel in
/-- The claim's description of the span deletion: select from just after
node `a` to just before node `b`, in one range. -/
def selectSpanBetween (s : EState) (a b : Nat) : EState :=
  match DOMOperations.boundaryAfter s.tree a, DOMOperations.boundaryBefore s.tree b with
  | some (p1, k1), some (p2, k2) => { s with sel := some ⟨p1, k1, p2, k2⟩ }
  | _, _ => s

open DTree MarkdownBlockModel in
/-- The claim's wording for `previousBlock`: skip siblings that are neither
blocks nor containers, return the first preceding block sibling, and descend
to a container's last block child. -/
def prevBlockClaimLoop : List DNode → Option DNode
  | [] => none
  | p :: rest =>
      if isBlockElement (some p) then some p
      else if isContainerElement (some p) then
        (p.children.filter (fun c => isBlockElement (some c))).getLast?
      else prevBlockClaimLoop rest

open DTree MarkdownBlockModel in
/-- The claim's wording applied to a node of the tree. -/
def getPreviousBlockClaim (s : EState) (i : Nat) : Option DNode :=
  prevBlockClaimLoop (elemSiblingsBefore s.tree i)

open DTree MarkdownBlockModel in
/-- Per-sibling classification actually implemented by `getPreviousBlock`:
a block sibling is returned; a container sibling is returned through its last
element child only when that child is a block; everything else is skipped. -/
def prevBlockStep (p : DNode) : Option DNode :=
  if isBlockElement (some p) then some p
  else if isContainerElement (some p) then
    match lastElementChild p with
    | some lastChild => if isBlockElement (some lastChild) then some lastChild else none
    | none => none
  else none

open DTree MarkdownBlockModel in
/-- Per-sibling classification actually implemented by `getNextBlock`. -/
def nextBlockStep (p : DNode) : Option DNode :=
  if isBlockElement (some p) then some p
  else if isContainerElement (some p) then
    match firstElementChild p with
    | some firstChild => if isBlockElement (some firstChild) then some firstChild else none
    | none => none
  else none

open DTree MarkdownBlockModel in
/-- The coalescing guard of the implicit frame claim: the reference is not an
attached root-level empty paragraph flanked by two containers of the same
tag.  (A reference no longer in the tree is detached, hence in particular not
a root-level paragraph.) -/
def coalesceNotApplicable (s : EState) (ref : Nat) : Bool :=
  match DTree.findNode s.tree ref with
  | none => true
  | some cur =>
      DOMOperations.getTagName (some cur) != some "P"
      || isContainerElement (DOMOperations.getParentElement s ref)
      || !(isBlockEmpty (some cur))
      || match DOMOperations.getPreviousSibling s ref, DOMOperations.getNextSibling s ref with
         | some prevSibling, some nextSibling =>
             !(isContainerElement (some prevSibling)
               && isContainerElement (some nextSibling)
               && (DOMOperations.getTagName (some prevSibling)
                   == DOMOperations.getTagName (some nextSibling)))
         | _, _ => true

/-! ### One-hole tree contexts

Used to localize `updNode` mutations under the physical-identity assumption
that node identities in a live DOM tree are pairwise distinct. -/

/-- A one-hole context: a path of element nodes with siblings on both sides
of the hole. -/
inductive TCtx where
  | hole
  | node (id : Nat) (tag : String) (pre : List DNode) (c : TCtx) (post : List DNode)

/-- Plug a node into the hole of a context. -/
def TCtx.fill : TCtx → DNode → DNode
  | .hole, n => n
  | .node j tg pre c post, n => .elem j tg (pre ++ [TCtx.fill c n] ++ post)

/-- Identities contributed by the context itself. -/
def TCtx.ids : TCtx → List Nat
  | .hole => []
  | .node j _ pre c post =>
      j :: (DTree.idsOfList pre ++ TCtx.ids c ++ DTree.idsOfList post)

/-- An empty paragraph inside a blockquote, caret in the empty paragraph. -/
def stateEmptyInContainer : EState :=
  { tree := .elem 0 "DIV" [.elem 1 "BLOCKQUOTE"
      [.elem 2 "P" [.text 3 "abc"], .elem 4 "P" [.elem 5 "BR" []]]],
    sel := some (RangeS.caret 4 0), nextId := 100, trace := [] }

/-- The claim's description of the Enter new-sibling rule: place the caret
after the block, insert an empty block of the same tag, and put the caret at
the start of the inserted block. -/
def insertSiblingBlockAfter (s : EState) (blockId : Nat) : EState :=
  let newBlockTag := jsToLower (((DTree.findNode s.tree blockId).bind DNode.tag?).getD "")
  let s1 := DOMOperations.setCaretAfter s blockId
  let s2 := (DOMOperations.insertHTML s1 [PNode.pelem newBlockTag [PNode.pelem "br" []]]).2
  match DOMOperations.getNextSibling s2 blockId with
  | some newBlock => DOMOperations.setCaretAtStart s2 newBlock.nid
  | none => s2

/-! ## Theorems

Each claim of the specification is settled by one theorem below (with a
witness when the theorem carries hypotheses, and a counterexample when the
claim as stated fails on the code). -/

open DTree MarkdownBlockModel DOMOperations

/-- C2 counterexample: at Scenario A — `blockquote(p("abc"), p("def"))` with
the caret collapsed at the start of "def" — the caret is at block start, yet
`handleBackspace` returns not-handled (false), contradicting the claimed
handled (true) with an in-container merge.  (A non-empty paragraph inside a
container matches none of the handler's branches: the empty-between-
containers case needs a root-level paragraph, the convert case needs an
empty or styled block, and the merge case needs a root-level paragraph.) -/
theorem claim2_counterexample :
    (isAtBlockStart stateScenarioA 5 0).atStart = true ∧
    ¬ ((MarkdownBlockEditor.handleBackspace stateScenarioA).1 = true) := by
  decide

/-- C2 amended: at Scenario A the handler returns not-handled (false) and
leaves the state — tree, selection and command trace — unchanged; the
in-container merge is left to the native deletion behavior. -/
theorem claim2_amended_noop :
    MarkdownBlockEditor.handleBackspace stateScenarioA = (false, stateScenarioA) := by
  decide

/-- C1 counterexample: the same state satisfies the claim's precondition
(collapsed caret at block start, enclosing block's parent is a container),
but the handler does not perform the compound conversion and returns
false: the conversion happens only when the block is empty or styled. -/
theorem claim1_counterexample :
    isAtBlockStart stateScenarioA 5 0 = ⟨true, some 4⟩ ∧
    isContainerElement (getParentElement stateScenarioA 4) = true ∧
    (MarkdownBlockEditor.handleBackspace stateScenarioA).1 = false := by
  decide

/-- C1 amended: for a Backspace with a collapsed selection at block start
where the enclosing block's parent is a container element AND the block is
empty or a non-paragraph block, `handleBackspace` performs exactly the
compound primitive `convertBlockToParagraph` (caret to block start, outdent,
formatBlock to paragraph) and returns handled. -/
theorem claim1_convert_in_container (s : EState) (ctx : DOMOperations.Ctx) (b : Nat)
    (bn : DNode)
    (hctx : getCursorContext s = some ctx)
    (hcol : ctx.collapsed = true)
    (hstart : isAtBlockStart s ctx.container ctx.offset = ⟨true, some b⟩)
    (hbn : DTree.findNode s.tree b = some bn)
    (hblk : isBlockElement (some bn) = true)
    (hcont : isContainerElement (getParentElement s b) = true)
    (hcase : isBlockEmpty (some bn) = true ∨ getBlockType (some bn) ≠ "paragraph") :
    MarkdownBlockEditor.handleBackspace s = MarkdownBlockEditor.convertBlockToParagraph s b := by
  unfold MarkdownBlockEditor.handleBackspace
  rw [hctx]
  simp only [hcol]
  rw [hstart]
  simp only [hbn, hcont]
  rcases hcase with h | h
  · simp [h, hblk]
  · simp [h, hblk]

/-- C1 witness: an empty paragraph inside a blockquote is converted by the
compound primitive. -/
theorem claim1_witness :
    MarkdownBlockEditor.handleBackspace stateEmptyInContainer =
      MarkdownBlockEditor.convertBlockToParagraph stateEmptyInContainer 4 :=
  claim1_convert_in_container stateEmptyInContainer ⟨true, 4, 0, 4, 0⟩ 4
    (.elem 4 "P" [.elem 5 "BR" []]) (by decide) (by decide) (by decide) (by decide)
    (by decide) (by decide) (Or.inl (by decide))

/-- C9: `isBlockEmpty` holds exactly when the block's trimmed text content is
empty or its serialized content is exactly the placeholder line break. -/
theorem claim9_isBlockEmpty_iff (b : DNode) :
    isBlockEmpty (some b) = true ↔
      (jsTrim (textContent b) = "" ∨ innerHTML b = "<br>") := by
  simp [isBlockEmpty]

/-- C10: the implicit frame of coalescing — when `preserveSplit` is set, or
the reference element is not an attached root-level empty paragraph with
same-tag containers as both element siblings, `mergeAdjacentContainers`
returns the state completely unchanged: no tree mutation, no selection
change, no structural edit command. -/
theorem claim10_coalesce_frame (s : EState) (ref : Nat) (ps : Bool)
    (h : ps = true ∨ coalesceNotApplicable s ref = true) :
    MarkdownBlockEditor.mergeAdjacentContainers s ref ps = s := by
  unfold MarkdownBlockEditor.mergeAdjacentContainers
  rcases h with h | h
  · simp [h]
  · unfold coalesceNotApplicable at h
    revert h
    cases hfn : DTree.findNode s.tree ref with
    | none => intro _; cases ps <;> simp [hfn]
    | some cur =>
        cases hp : getPreviousSibling s ref with
        | none => intro _; cases ps <;> simp [hfn, hp]
        | some X =>
            cases hn : getNextSibling s ref with
            | none => intro _; cases ps <;> simp [hfn, hp, hn]
            | some Y =>
                intro h
                dsimp only at h
                cases hb : (isContainerElement (some X) && isContainerElement (some Y)
                    && (getTagName (some X) == getTagName (some Y))) with
                | true =>
                    rw [hb] at h
                    simp only [Bool.or_eq_true, bne_iff_ne, Bool.not_eq_true] at h
                    rcases h with ((h | h) | h) | h
                    · cases ps <;> simp [hfn, hp, hn, h]
                    · cases ps <;> simp [hfn, hp, hn, h]
                    · have h2 : isBlockEmpty (some cur) = false := by simpa using h
                      cases ps <;> simp [hfn, hp, hn, h2]
                    · simp at h
                | false =>
                    simp only [Bool.and_eq_false_iff, beq_eq_false_iff_ne, ne_eq] at hb
                    rcases hb with (hb | hb) | hb <;>
                      cases ps <;> simp [hfn, hp, hn, hb]

/-- C10 witness: a non-empty paragraph inside a blockquote is left alone. -/
theorem claim10_witness :
    MarkdownBlockEditor.mergeAdjacentContainers stateScenarioA 2 false = stateScenarioA :=
  claim10_coalesce_frame stateScenarioA 2 false (Or.inr (by decide))

/-- C7: absence of a selection range, a non-collapsed selection (Backspace),
a caret not at block start (Backspace), and an Enter event matching no rule
all degrade to not-handled (false) with the full state — tree, selection and
command trace — unchanged, and without any structural edit command. -/
theorem claim7_not_handled_frame :
    (∀ s : EState, getCursorContext s = none →
      MarkdownBlockEditor.handleBackspace s = (false, s) ∧
      MarkdownBlockEditor.handleEnter s = (false, s)) ∧
    (∀ (s : EState) (ctx : DOMOperations.Ctx), getCursorContext s = some ctx →
      ctx.collapsed = false → MarkdownBlockEditor.handleBackspace s = (false, s)) ∧
    (∀ (s : EState) (ctx : DOMOperations.Ctx), getCursorContext s = some ctx →
      ctx.collapsed = true →
      (isAtBlockStart s ctx.container ctx.offset).atStart = false →
      MarkdownBlockEditor.handleBackspace s = (false, s)) ∧
    (∀ (s : EState) (ctx : DOMOperations.Ctx), getCursorContext s = some ctx →
      findEmptyBlock s (MarkdownBlockEditor.commonAncestorId s ctx) = none →
      isAtEndOfInlineElement s = false →
      (findBlockInContainer s (MarkdownBlockEditor.commonAncestorId s ctx) = none ∨
        (∃ fb, findBlockInContainer s (MarkdownBlockEditor.commonAncestorId s ctx) = some fb ∧
          (isBlockEmpty (DTree.findNode s.tree fb.block) = true ∨
           isAtBlockEnd s fb.block = false))) →
      MarkdownBlockEditor.handleEnter s = (false, s)) := by
  refine ⟨?_, ?_, ?_, ?_⟩
  · intro s h
    constructor
    · unfold MarkdownBlockEditor.handleBackspace
      rw [h]
    · unfold MarkdownBlockEditor.handleEnter
      rw [h]
  · intro s ctx hctx hcol
    unfold MarkdownBlockEditor.handleBackspace
    rw [hctx]
    simp [hcol]
  · intro s ctx hctx hcol hstart
    unfold MarkdownBlockEditor.handleBackspace
    rw [hctx]
    simp [hcol, hstart]
  · intro s ctx hctx hfe hinl hcase
    unfold MarkdownBlockEditor.handleEnter
    rw [hctx]
    dsimp only
    rw [hfe]
    simp only [hinl, Bool.false_eq_true, if_false]
    rcases hcase with hnone | ⟨fb, hfb, hcond⟩
    · rw [hnone]
    · rw [hfb]
      rcases hcond with hc | hc
      · simp [hc]
      · simp [hc]

/-- C7 witness: with no selection range, Backspace is not handled and the
state is untouched. -/
theorem claim7_witness :
    MarkdownBlockEditor.handleBackspace stateNoSelection = (false, stateNoSelection) :=
  (claim7_not_handled_frame.1 stateNoSelection (by decide)).1

/-- The previous-block sibling loop is the first sibling on which the
per-sibling classifier fires. -/
theorem prevBlockLoop_eq_findSome (sibs : List DNode) :
    prevBlockLoop sibs = sibs.findSome? prevBlockStep := by
  induction sibs with
  | nil => rfl
  | cons p rest ih =>
      simp only [prevBlockLoop, List.findSome?_cons, prevBlockStep]
      by_cases h1 : isBlockElement (some p) = true
      · simp [h1]
      · simp only [h1, if_false]
        by_cases h2 : isContainerElement (some p) = true
        · simp only [h2, if_true]
          cases hlc : DTree.lastElementChild p with
          | none => simpa using ih
          | some lastChild =>
              by_cases h3 : isBlockElement (some lastChild) = true
              · simp [h3]
              · simpa [h3] using ih
        · simpa [h2] using ih

/-- The next-block sibling loop is the first sibling on which the
per-sibling classifier fires. -/
theorem nextBlockLoop_eq_findSome (sibs : List DNode) :
    nextBlockLoop sibs = sibs.findSome? nextBlockStep := by
  induction sibs with
  | nil => rfl
  | cons p rest ih =>
      simp only [nextBlockLoop, List.findSome?_cons, nextBlockStep]
      by_cases h1 : isBlockElement (some p) = true
      · simp [h1]
      · simp only [h1, if_false]
        by_cases h2 : isContainerElement (some p) = true
        · simp only [h2, if_true]
          cases hfc : DTree.firstElementChild p with
          | none => simpa using ih
          | some firstChild =>
              by_cases h3 : isBlockElement (some firstChild) = true
              · simp [h3]
              · simpa [h3] using ih
        · simpa [h2] using ih

/-- C8 counterexample: the previous element sibling of the paragraph is a
`UL` whose last element child is a nested `UL`, not a block; the claim's
"descend to the container's last block child" would yield `li("a")`, but
`getPreviousBlock` skips the container entirely and returns null. -/
theorem claim8_counterexample :
    getPreviousBlock stateNestedList 7 = none ∧
    getPreviousBlockClaim stateNestedList 7 = some (.elem 2 "LI" [.text 3 "a"]) ∧
    getPreviousBlock stateNestedList 7 ≠ getPreviousBlockClaim stateNestedList 7 := by
  decide

/-- C8 amended: `getPreviousBlock` (resp. `getNextBlock`) walks the preceding
(following) element siblings and returns the first hit of a per-sibling
classifier: a block sibling itself; for a container sibling its last (first)
element child, but only when that child is itself a block — a container
whose last (first) element child is not a block is skipped like a non-block
sibling; null when no sibling fires. -/
theorem claim8_sibling_search (s : EState) (i : Nat) :
    getPreviousBlock s i = (elemSiblingsBefore s.tree i).findSome? prevBlockStep ∧
    getNextBlock s i = (elemSiblingsAfter s.tree i).findSome? nextBlockStep :=
  ⟨prevBlockLoop_eq_findSome _, nextBlockLoop_eq_findSome _⟩

/-- C4: when the innermost block at the caret is empty and is styled or
inside a container (the `findEmptyBlock` classification), Enter performs
exactly the compound primitive `convertBlockToParagraph` and reports
handled; in particular Scenario E — `ul(li("a"), li(""))` with the caret in
the empty last item — yields `ul(li("a"))` followed by an empty root-level
paragraph, with the caret in the new paragraph and exactly the outdent and
formatBlock commands issued. -/
theorem claim4_enter_empty_block :
    (∀ (s : EState) (ctx : DOMOperations.Ctx) (fb : FoundBlock),
      getCursorContext s = some ctx →
      findEmptyBlock s (MarkdownBlockEditor.commonAncestorId s ctx) = some fb →
      MarkdownBlockEditor.handleEnter s =
        MarkdownBlockEditor.convertBlockToParagraph s fb.block) ∧
    MarkdownBlockEditor.handleEnter stateScenarioE =
      (true,
       { tree := .elem 0 "DIV" [.elem 1 "UL" [.elem 2 "LI" [.text 3 "a"]],
           .elem 4 "P" [.elem 5 "BR" []]],
         sel := some (RangeS.caret 4 0), nextId := 100,
         trace := [.outdent, .formatBlock "p"] }) := by
  constructor
  · intro s ctx fb hctx hfeb
    unfold MarkdownBlockEditor.handleEnter
    rw [hctx]
    dsimp only
    rw [hfeb]
    simp
  · decide

/-- C4 witness: the general branch applied at Scenario E. -/
theorem claim4_witness :
    MarkdownBlockEditor.handleEnter stateScenarioE =
      MarkdownBlockEditor.convertBlockToParagraph stateScenarioE 4 :=
  claim4_enter_empty_block.1 stateScenarioE ⟨true, 4, 0, 4, 0⟩ ⟨4, some 1⟩
    (by decide) (by decide)

/-- The modelled `delete` effect never touches the command trace (the trace
is appended by the wrapper, not the effect). -/
theorem trace_deleteSelectionEffect (s : EState) :
    (deleteSelectionEffect s).trace = s.trace := by
  unfold deleteSelectionEffect
  repeat' split
  all_goals rfl

/-- The caret-insertion core of the fragment-insertion effect never touches
the command trace. -/
theorem trace_insertFragAux (s0 s : EState) (frag : List PNode)
    (h : s.trace = s0.trace) :
    (match s.sel with
     | none => s
     | some r =>
        match DTree.findNode s.tree r.sc with
        | some (.elem j _ _) =>
            { s with
              tree := DTree.updNode s.tree j (fun n =>
                .elem n.nid (n.tag?.getD "")
                  (n.children.take r.so ++ (PNode.buildList frag s.nextId).1 ++
                    n.children.drop r.so)),
              sel := some (RangeS.caret j (r.so + (PNode.buildList frag s.nextId).1.length)),
              nextId := (PNode.buildList frag s.nextId).2 }
        | some (.text j str) =>
            match DTree.findParent s.tree j with
            | some p =>
                match DTree.childIdx p.children j with
                | some k =>
                    { s with
                      tree := DTree.updNode s.tree p.nid (fun q =>
                        .elem q.nid (q.tag?.getD "")
                          (q.children.take k ++
                            ([DNode.text j ⟨str.data.take r.so⟩] ++
                              (PNode.buildList frag s.nextId).1 ++
                              [DNode.text (PNode.buildList frag s.nextId).2
                                ⟨str.data.drop r.so⟩]) ++
                            q.children.drop (k + 1))),
                      sel := some (RangeS.caret p.nid (k + 1 + (PNode.buildList frag s.nextId).1.length)),
                      nextId := (PNode.buildList frag s.nextId).2 + 1 }
                | none => s
            | none => s
        | none => s : EState).trace = s0.trace := by
  cases hs : s.sel with
  | none => simpa using h
  | some r =>
      dsimp only
      cases hf : DTree.findNode s.tree r.sc with
      | none => simpa using h
      | some n =>
          cases n with
          | elem j tg cs => simpa using h
          | text j str =>
              dsimp only
              cases hp : DTree.findParent s.tree j with
              | none => simpa using h
              | some p =>
                  dsimp only
                  cases hk : DTree.childIdx p.children j with
                  | none => simpa using h
                  | some k => simpa using h

/-- The modelled fragment-insertion effect never touches the command trace. -/
theorem trace_insertFragEffect (s : EState) (frag : List PNode) :
    (insertFragEffect s frag).trace = s.trace := by
  unfold insertFragEffect
  by_cases hc : (s.sel.map RangeS.collapsed).getD true = true
  · simp only [hc, if_true]
    exact trace_insertFragAux s s frag rfl
  · simp only [hc, if_false]
    exact trace_insertFragAux s (deleteSelectionEffect s) frag
      (trace_deleteSelectionEffect s)

/-- Caret placement is not a structural edit command. -/
theorem trace_setCaretAfter (s : EState) (i : Nat) :
    (setCaretAfter s i).trace = s.trace := by
  unfold setCaretAfter
  repeat' split
  all_goals rfl

/-- `insertHTML` records exactly one structural edit command. -/
theorem trace_insertHTML (s : EState) (frag : List PNode) :
    ((insertHTML s frag).2).trace = s.trace ++ [Cmd.insertHTML frag] := by
  unfold insertHTML pushCmd
  simp [trace_insertFragEffect]

/-- The new-sibling operation issues exactly one structural edit command:
the insertion of an empty block of the same tag. -/
theorem trace_insertSiblingBlockAfter (s : EState) (b : Nat) :
    (insertSiblingBlockAfter s b).trace = s.trace ++
      [Cmd.insertHTML [PNode.pelem
        (jsToLower (((DTree.findNode s.tree b).bind DNode.tag?).getD ""))
        [PNode.pelem "br" []]]] := by
  unfold insertSiblingBlockAfter
  cases h : getNextSibling
      ((insertHTML (setCaretAfter s b)
        [PNode.pelem (jsToLower (((DTree.findNode s.tree b).bind DNode.tag?).getD ""))
          [PNode.pelem "br" []]]).2) b with
  | none => simp [h, trace_insertHTML, trace_setCaretAfter]
  | some newBlock =>
      simp [h, DOMOperations.setCaretAtStart, trace_insertHTML, trace_setCaretAfter]

/-- C5: Enter inside a non-empty block in a container with the caret at the
block's end (and the empty-block and inline-run rules not applying) inserts
a new empty sibling block of the same tag immediately after the block,
places the caret at its start, reports handled, and issues exactly that one
insertion command; in particular for `blockquote(p("ab"))` with the caret
after "ab" a fresh empty paragraph appears as the next blockquote child with
the caret inside it. -/
theorem claim5_enter_new_sibling :
    (∀ (s : EState) (ctx : DOMOperations.Ctx) (fb : FoundBlock),
      getCursorContext s = some ctx →
      findEmptyBlock s (MarkdownBlockEditor.commonAncestorId s ctx) = none →
      isAtEndOfInlineElement s = false →
      findBlockInContainer s (MarkdownBlockEditor.commonAncestorId s ctx) = some fb →
      isBlockEmpty (DTree.findNode s.tree fb.block) = false →
      isAtBlockEnd s fb.block = true →
      MarkdownBlockEditor.handleEnter s = (true, insertSiblingBlockAfter s fb.block) ∧
      (MarkdownBlockEditor.handleEnter s).2.trace = s.trace ++
        [Cmd.insertHTML [PNode.pelem
          (jsToLower (((DTree.findNode s.tree fb.block).bind DNode.tag?).getD ""))
          [PNode.pelem "br" []]]]) ∧
    MarkdownBlockEditor.handleEnter stateEnterSibling =
      (true,
       { tree := .elem 0 "DIV" [.elem 1 "BLOCKQUOTE"
           [.elem 2 "P" [.text 3 "ab"], .elem 100 "P" [.elem 101 "BR" []]]],
         sel := some (RangeS.caret 100 0), nextId := 102,
         trace := [.insertHTML [PNode.pelem "p" [PNode.pelem "br" []]]] }) := by
  constructor
  · intro s ctx fb hctx hfe hinl hfbc hne hend
    have h1 : MarkdownBlockEditor.handleEnter s = (true, insertSiblingBlockAfter s fb.block) := by
      unfold MarkdownBlockEditor.handleEnter
      rw [hctx]
      dsimp only
      rw [hfe]
      simp only [hinl, Bool.false_eq_true, if_false]
      rw [hfbc]
      simp only [hne, hend]
      simp [insertSiblingBlockAfter]
    refine ⟨h1, ?_⟩
    rw [h1]
    exact trace_insertSiblingBlockAfter s fb.block
  · decide

/-- C5 witness: the general branch applied at the blockquote state. -/
theorem claim5_witness :
    MarkdownBlockEditor.handleEnter stateEnterSibling =
      (true, insertSiblingBlockAfter stateEnterSibling 2) :=
  (claim5_enter_new_sibling.1 stateEnterSibling ⟨true, 3, 2, 3, 2⟩ ⟨2, some 1⟩
    (by decide) (by decide) (by decide) (by decide) (by decide) (by decide)).1

/-- C3 counterexample: at `blockquote(p1), p2(empty), blockquote(p3)` the
handler does coalesce (handled = true), but not by selecting and deleting
the span from just after the first container's last child to just before the
second container's first child: for blockquote pairs it first re-inserts the
second container's content through `insertParagraph` and `insertHTML` and
then deletes a range spanning from before the empty paragraph to after the
second container, so the command trace is not the claimed single span
deletion. -/
theorem claim3_counterexample :
    (MarkdownBlockEditor.handleBackspace stateScenarioB).1 = true ∧
    (MarkdownBlockEditor.handleBackspace stateScenarioB).2.trace ≠ [Cmd.delete] ∧
    (MarkdownBlockEditor.handleBackspace stateScenarioB).2.trace =
      [.insertParagraph, .insertHTML [.pelem "P" [.ptext "y"]], .delete] := by
  decide

/-- C3 amended: for a Backspace at an attached root-level empty paragraph
whose element siblings are containers — when they are not both blockquotes
(for identical kinds: any same kind except blockquote) and both have element
children — the handler selects exactly the span from just after the first
container's last child to just before the second container's first child,
deletes it in one command, and returns handled; in particular
`ul(li "x"), p(empty), ul(li "y")` becomes a single `ul(li "x", li "y")`
with the single `delete` in the trace and the caret at the end of the first
container's original last block. -/
theorem claim3_coalesce_span :
    (∀ (s : EState) (ctx : DOMOperations.Ctx) (b : Nat) (bn X Y a bb : DNode),
      getCursorContext s = some ctx →
      ctx.collapsed = true →
      isAtBlockStart s ctx.container ctx.offset = ⟨true, some b⟩ →
      DTree.findNode s.tree b = some bn →
      bn.tag? = some "P" →
      isContainerElement (getParentElement s b) = false →
      isBlockEmpty (some bn) = true →
      getPreviousSibling s b = some X →
      getNextSibling s b = some Y →
      isContainerElement (some X) = true →
      isContainerElement (some Y) = true →
      ¬ (X.tag? = some "BLOCKQUOTE" ∧ Y.tag? = some "BLOCKQUOTE") →
      getLastChild s X.nid = some a →
      getFirstChild s Y.nid = some bb →
      MarkdownBlockEditor.handleBackspace s =
        (true, (deleteSelection (selectSpanBetween s a.nid bb.nid)).2)) ∧
    MarkdownBlockEditor.handleBackspace stateListCoalesce =
      (true,
       { tree := .elem 0 "DIV" [.elem 1 "UL"
           [.elem 2 "LI" [.text 3 "x"], .elem 7 "LI" [.text 8 "y"]]],
         sel := some (RangeS.caret 2 1), nextId := 100, trace := [.delete] }) := by
  constructor
  · intro s ctx b bn X Y a bb hctx hcol hstart hbn htag hnc hemp hprev hnext hXc hYc
      hnbq ha hbb
    unfold MarkdownBlockEditor.handleBackspace
    rw [hctx]
    simp only [hcol]
    rw [hstart]
    simp only [hbn]
    simp only [DOMOperations.getTagName, Option.bind, htag, hnc, hemp,
      hprev, hnext, hXc, hYc, ha, hbb, selectSpanBetween]
    simp [hnbq]
  · decide

/-- C3 witness: the general branch applied at the list state. -/
theorem claim3_witness :
    MarkdownBlockEditor.handleBackspace stateListCoalesce =
      (true, (deleteSelection (selectSpanBetween stateListCoalesce 2 7)).2) :=
  claim3_coalesce_span.1 stateListCoalesce ⟨true, 4, 0, 4, 0⟩ 4
    (.elem 4 "P" [.elem 5 "BR" []])
    (.elem 1 "UL" [.elem 2 "LI" [.text 3 "x"]])
    (.elem 6 "UL" [.elem 7 "LI" [.text 8 "y"]])
    (.elem 2 "LI" [.text 3 "x"]) (.elem 7 "LI" [.text 8 "y"])
    (by decide) (by decide) (by decide) (by decide) (by decide) (by decide)
    (by decide) (by decide) (by decide) (by decide) (by decide) (by decide)
    (by decide) (by decide)

/-! ### Identity bookkeeping for the coalescing idempotence proof

Node identities model the physical identities of live DOM nodes, so any
state describing a real DOM satisfies `(idsOf tree).Nodup`; the lemmas below
localize tree mutations under that assumption. -/

namespace DTree

theorem idsOfList_append (as bs : List DNode) :
    idsOfList (as ++ bs) = idsOfList as ++ idsOfList bs := by
  induction as with
  | nil => rfl
  | cons c cs ih => simp [idsOfList, ih]

theorem nid_mem_idsOf (t : DNode) : t.nid ∈ idsOf t := by
  cases t <;> simp [idsOf, DNode.nid]

theorem nid_mem_idsOfList {c : DNode} {cs : List DNode} (h : c ∈ cs) :
    c.nid ∈ idsOfList cs := by
  induction cs with
  | nil => cases h
  | cons d ds ih =>
      rcases List.mem_cons.mp h with h | h
      · subst h
        simp [idsOfList, nid_mem_idsOf]
      · simp [idsOfList, ih h]

theorem mem_idsOf_of_mem_idsOfList {x : Nat} {c : DNode} {cs : List DNode}
    (hc : c ∈ cs) (hx : x ∈ idsOf c) : x ∈ idsOfList cs := by
  induction cs with
  | nil => cases hc
  | cons d ds ih =>
      rcases List.mem_cons.mp hc with h | h
      · subst h
        simp [idsOfList, hx]
      · simp [idsOfList, ih h]

end DTree

mutual

theorem DTree.updNode_not_mem : ∀ (t : DNode) (i : Nat) (f : DNode → DNode),
    i ∉ DTree.idsOf t → DTree.updNode t i f = t
  | .text j s, i, f => by
      intro h
      simp only [DTree.idsOf, List.mem_singleton] at h
      simp [DTree.updNode, DNode.nid, Ne.symm h]
  | .elem j tg cs, i, f => by
      intro h
      simp only [DTree.idsOf, List.mem_cons] at h
      push_neg at h
      simp [DTree.updNode, DNode.nid, Ne.symm h.1,
        DTree.updNodeList_not_mem cs i f h.2]

theorem DTree.updNodeList_not_mem : ∀ (cs : List DNode) (i : Nat) (f : DNode → DNode),
    i ∉ DTree.idsOfList cs → DTree.updNodeList cs i f = cs
  | [], _, _ => by intro _; rfl
  | c :: cs, i, f => by
      intro h
      simp only [DTree.idsOfList, List.mem_append] at h
      push_neg at h
      simp [DTree.updNodeList, DTree.updNode_not_mem c i f h.1,
        DTree.updNodeList_not_mem cs i f h.2]

end

mutual

theorem DTree.findNode_not_mem : ∀ (t : DNode) (i : Nat),
    i ∉ DTree.idsOf t → DTree.findNode t i = none
  | .text j s, i => by
      intro h
      simp only [DTree.idsOf, List.mem_singleton] at h
      simp [DTree.findNode, Ne.symm h]
  | .elem j tg cs, i => by
      intro h
      simp only [DTree.idsOf, List.mem_cons] at h
      push_neg at h
      simp [DTree.findNode, Ne.symm h.1, DTree.findNodeList_not_mem cs i h.2]

theorem DTree.findNodeList_not_mem : ∀ (cs : List DNode) (i : Nat),
    i ∉ DTree.idsOfList cs → DTree.findNodeList cs i = none
  | [], _ => by intro _; rfl
  | c :: cs, i => by
      intro h
      simp only [DTree.idsOfList, List.mem_append] at h
      push_neg at h
      simp [DTree.findNodeList, DTree.findNode_not_mem c i h.1,
        DTree.findNodeList_not_mem cs i h.2, Option.orElse]

end

mutual

theorem DTree.findParent_not_mem : ∀ (t : DNode) (i : Nat),
    i ∉ DTree.idsOf t → DTree.findParent t i = none
  | .text _ _, i => by intro _; rfl
  | .elem j tg cs, i => by
      intro h
      simp only [DTree.idsOf, List.mem_cons] at h
      push_neg at h
      have hany : cs.any (fun c => c.nid = i) = false := by
        rw [List.any_eq_false]
        intro c hc
        simp only [decide_eq_true_eq]
        intro hcn
        exact h.2 (hcn ▸ DTree.nid_mem_idsOfList hc)
      simp [DTree.findParent, hany, DTree.findParentList_not_mem cs i h.2]

theorem DTree.findParentList_not_mem : ∀ (cs : List DNode) (i : Nat),
    i ∉ DTree.idsOfList cs → DTree.findParentList cs i = none
  | [], _ => by intro _; rfl
  | c :: cs, i => by
      intro h
      simp only [DTree.idsOfList, List.mem_append] at h
      push_neg at h
      simp [DTree.findParentList, DTree.findParent_not_mem c i h.1,
        DTree.findParentList_not_mem cs i h.2, Option.orElse]

end

mutual

theorem DTree.count_updNode_le : ∀ (t : DNode) (j : Nat) (f : DNode → DNode) (x : Nat),
    (∀ n : DNode, ((DTree.idsOf (f n)).count x) ≤ (DTree.idsOf n).count x) →
    ((DTree.idsOf (DTree.updNode t j f)).count x) ≤ (DTree.idsOf t).count x
  | .text i s, j, f, x => by
      intro hf
      unfold DTree.updNode
      split
      · exact hf (.text i s)
      · exact Nat.le_refl _
  | .elem i tg cs, j, f, x => by
      intro hf
      unfold DTree.updNode
      split
      · exact hf (.elem i tg cs)
      · simp only [DTree.idsOf, List.count_cons]
        have := DTree.count_updNodeList_le cs j f x hf
        omega

theorem DTree.count_updNodeList_le : ∀ (cs : List DNode) (j : Nat) (f : DNode → DNode)
    (x : Nat),
    (∀ n : DNode, ((DTree.idsOf (f n)).count x) ≤ (DTree.idsOf n).count x) →
    ((DTree.idsOfList (DTree.updNodeList cs j f)).count x) ≤ (DTree.idsOfList cs).count x
  | [], _, _, _ => by intro _; exact Nat.le_refl _
  | c :: cs, j, f, x => by
      intro hf
      simp only [DTree.updNodeList, DTree.idsOfList, List.count_append]
      have h1 := DTree.count_updNode_le c j f x hf
      have h2 := DTree.count_updNodeList_le cs j f x hf
      omega

end

namespace DTree

/-- Removing one filtered-out child can only lower identity counts. -/
theorem count_idsOfList_filter_le (cs : List DNode) (p : DNode → Bool) (x : Nat) :
    ((idsOfList (cs.filter p)).count x) ≤ (idsOfList cs).count x := by
  induction cs with
  | nil => exact Nat.le_refl _
  | cons c cs ih =>
      by_cases h : p c = true
      · simp only [List.filter_cons, h, if_true, idsOfList, List.count_append]
        omega
      · simp only [List.filter_cons, h, Bool.false_eq_true, if_false, idsOfList,
          List.count_append]
        omega

end DTree

namespace DTree

theorem updNodeList_append (as bs : List DNode) (j : Nat) (f : DNode → DNode) :
    updNodeList (as ++ bs) j f = updNodeList as j f ++ updNodeList bs j f := by
  induction as with
  | nil => rfl
  | cons c cs ih => simp [updNodeList, ih]

theorem findNodeList_append (as bs : List DNode) (i : Nat) :
    findNodeList (as ++ bs) i =
      (findNodeList as i).orElse (fun _ => findNodeList bs i) := by
  induction as with
  | nil => rfl
  | cons c cs ih =>
      simp only [List.cons_append, findNodeList]
      cases findNode c i with
      | none => simpa [Option.orElse] using ih
      | some v => simp [Option.orElse]

theorem findParentList_append (as bs : List DNode) (i : Nat) :
    findParentList (as ++ bs) i =
      (findParentList as i).orElse (fun _ => findParentList bs i) := by
  induction as with
  | nil => rfl
  | cons c cs ih =>
      simp only [List.cons_append, findParentList]
      cases findParent c i with
      | none => simpa [Option.orElse] using ih
      | some v => simp [Option.orElse]

end DTree

/-- Identity counts across a context-plugged tree split into context part and
plugged part. -/
theorem TCtx.count_idsOf_fill (C : TCtx) (n : DNode) (x : Nat) :
    ((DTree.idsOf (C.fill n)).count x) =
      ((C.ids).count x) + ((DTree.idsOf n).count x) := by
  induction C with
  | hole => simp [TCtx.fill, TCtx.ids]
  | node j tg pre c post ih =>
      simp only [TCtx.fill, TCtx.ids, DTree.idsOf, DTree.idsOfList_append,
        List.count_cons, List.count_append, DTree.idsOfList, List.count_nil, ih]
      omega

/-- A mutation whose target identity lives outside the context happens
entirely inside the plugged subtree. -/
theorem TCtx.updNode_fill (C : TCtx) (n : DNode) (j : Nat) (f : DNode → DNode)
    (h : j ∉ C.ids) :
    DTree.updNode (C.fill n) j f = C.fill (DTree.updNode n j f) := by
  induction C with
  | hole => rfl
  | node i tg pre c post ih =>
      simp only [TCtx.ids, List.mem_cons, List.mem_append] at h
      push_neg at h
      have hji : j ≠ i := h.1
      have hpre : j ∉ DTree.idsOfList pre := h.2.1.1
      have hc : j ∉ TCtx.ids c := h.2.1.2
      have hpost : j ∉ DTree.idsOfList post := h.2.2
      simp only [TCtx.fill, DTree.updNode, DNode.nid, Ne.symm hji, if_false,
        DTree.updNodeList_append, DTree.updNodeList_not_mem pre j f hpre,
        DTree.updNodeList_not_mem post j f hpost]
      simp [DTree.updNodeList, ih hc]

/-- The root identity of a plugged context is the plugged node's identity or
belongs to the context. -/
theorem TCtx.fill_nid (C : TCtx) (n : DNode) :
    (C.fill n).nid = n.nid ∨ (C.fill n).nid ∈ C.ids := by
  cases C with
  | hole => exact Or.inl rfl
  | node j tg pre c post => exact Or.inr (by simp [TCtx.fill, TCtx.ids, DNode.nid])

/-- Parent search for an identity outside the context and different from the
plugged node's root identity happens inside the plugged subtree. -/
theorem TCtx.findParent_fill (C : TCtx) (n : DNode) (i : Nat)
    (h : i ∉ C.ids) (hn : i ≠ n.nid) :
    DTree.findParent (C.fill n) i = DTree.findParent n i := by
  induction C with
  | hole => rfl
  | node j tg pre c post ih =>
      simp only [TCtx.ids, List.mem_cons, List.mem_append] at h
      push_neg at h
      have hji : i ≠ j := h.1
      have hpre : i ∉ DTree.idsOfList pre := h.2.1.1
      have hc : i ∉ TCtx.ids c := h.2.1.2
      have hpost : i ∉ DTree.idsOfList post := h.2.2
      have hany : ((pre ++ [TCtx.fill c n]) ++ post).any (fun m => m.nid = i) = false := by
        rw [List.any_eq_false]
        intro m hm
        simp only [decide_eq_true_eq]
        intro hmn
        rcases List.mem_append.mp hm with hm2 | hm2
        · rcases List.mem_append.mp hm2 with hm3 | hm3
          · exact hpre (hmn ▸ DTree.nid_mem_idsOfList hm3)
          · rcases List.mem_singleton.mp hm3 with rfl
            rcases TCtx.fill_nid c n with hcn | hcn
            · exact hn (hmn ▸ hcn)
            · exact hc (hmn ▸ hcn)
        · exact hpost (hmn ▸ DTree.nid_mem_idsOfList hm2)
      simp only [TCtx.fill, DTree.findParent, hany, Bool.false_eq_true, if_false,
        DTree.findParentList_append, DTree.findParentList_not_mem pre i hpre,
        DTree.findParentList_not_mem post i hpost]
      simp only [DTree.findParentList, ih hc]
      cases DTree.findParent n i <;> simp [Option.orElse]

/-- Node search for an identity outside the context happens inside the
plugged subtree. -/
theorem TCtx.findNode_fill (C : TCtx) (n : DNode) (i : Nat) (h : i ∉ C.ids) :
    DTree.findNode (C.fill n) i = DTree.findNode n i := by
  induction C with
  | hole => rfl
  | node j tg pre c post ih =>
      simp only [TCtx.ids, List.mem_cons, List.mem_append] at h
      push_neg at h
      have hji : i ≠ j := h.1
      have hpre : i ∉ DTree.idsOfList pre := h.2.1.1
      have hc : i ∉ TCtx.ids c := h.2.1.2
      have hpost : i ∉ DTree.idsOfList post := h.2.2
      simp only [TCtx.fill, DTree.findNode, Ne.symm hji, if_false,
        DTree.findNodeList_append, DTree.findNodeList_not_mem pre i hpre,
        DTree.findNodeList_not_mem post i hpost]
      simp only [DTree.findNodeList, ih hc]
      cases DTree.findNode n i <;> simp [Option.orElse]

mutual

/-- Any node returned by parent search is a subtree reachable by a one-hole
context. -/
theorem DTree.findParent_decomp : ∀ (t : DNode) (i : Nat) (p : DNode),
    DTree.findParent t i = some p → ∃ C : TCtx, t = C.fill p
  | .text _ _, i, p => by
      intro h
      simp [DTree.findParent] at h
  | .elem j tg cs, i, p => by
      intro h
      unfold DTree.findParent at h
      by_cases hany : cs.any (fun c => c.nid = i) = true
      · rw [if_pos hany] at h
        exact ⟨.hole, Option.some.inj h⟩
      · rw [if_neg hany] at h
        obtain ⟨pre, post, C1, hcs⟩ := DTree.findParentList_decomp cs i p h
        exact ⟨.node j tg pre C1 post, by simp [TCtx.fill, hcs]⟩

theorem DTree.findParentList_decomp : ∀ (cs : List DNode) (i : Nat) (p : DNode),
    DTree.findParentList cs i = some p →
    ∃ (pre : List DNode) (post : List DNode) (C1 : TCtx),
      cs = pre ++ [C1.fill p] ++ post
  | [], i, p => by
      intro h
      simp [DTree.findParentList] at h
  | c :: cs, i, p => by
      intro h
      unfold DTree.findParentList at h
      cases hc : DTree.findParent c i with
      | some q =>
          rw [hc] at h
          simp only [Option.orElse] at h
          have hq : q = p := by simpa using h
          subst hq
          obtain ⟨C1, hC1⟩ := DTree.findParent_decomp c i q hc
          exact ⟨[], cs, C1, by simp [hC1]⟩
      | none =>
          rw [hc] at h
          simp only [Option.orElse] at h
          obtain ⟨pre, post, C1, hcs⟩ := DTree.findParentList_decomp cs i p h
          exact ⟨c :: pre, post, C1, by simp [hcs]⟩

end

namespace DTree

theorem updNode_nid (t : DNode) (j : Nat) (f : DNode → DNode)
    (hf : ∀ n, (f n).nid = n.nid) : (updNode t j f).nid = t.nid := by
  unfold updNode
  split
  · exact hf t
  · cases t <;> rfl

theorem updNodeList_map_nid (cs : List DNode) (j : Nat) (f : DNode → DNode)
    (hf : ∀ n, (f n).nid = n.nid) :
    (updNodeList cs j f).map DNode.nid = cs.map DNode.nid := by
  induction cs with
  | nil => rfl
  | cons c cs ih => simp [updNodeList, updNode_nid c j f hf, ih]

theorem childIdx_congr (cs ds : List DNode) (i : Nat)
    (h : cs.map DNode.nid = ds.map DNode.nid) : childIdx cs i = childIdx ds i := by
  induction cs generalizing ds with
  | nil =>
      cases ds with
      | nil => rfl
      | cons d ds => simp at h
  | cons c cs ih =>
      cases ds with
      | nil => simp at h
      | cons d ds =>
          simp only [List.map_cons, List.cons.injEq] at h
          simp [childIdx, h.1, ih ds h.2]

theorem any_nid_congr (cs ds : List DNode) (i : Nat)
    (h : cs.map DNode.nid = ds.map DNode.nid) :
    cs.any (fun c => c.nid = i) = ds.any (fun c => c.nid = i) := by
  induction cs generalizing ds with
  | nil =>
      cases ds with
      | nil => rfl
      | cons d ds => simp at h
  | cons c cs ih =>
      cases ds with
      | nil => simp at h
      | cons d ds =>
          simp only [List.map_cons, List.cons.injEq] at h
          simp [List.any_cons, h.1, ih ds h.2]

theorem childIdx_isSome_of_any (cs : List DNode) (i : Nat)
    (h : cs.any (fun c => c.nid = i) = true) : ∃ k, childIdx cs i = some k := by
  induction cs with
  | nil => simp at h
  | cons c cs ih =>
      by_cases hc : c.nid = i
      · exact ⟨0, by simp [childIdx, hc]⟩
      · simp only [List.any_cons, Bool.or_eq_true, decide_eq_true_eq] at h
        rcases h with h | h
        · exact absurd h hc
        · obtain ⟨k, hk⟩ := ih h
          exact ⟨k + 1, by simp [childIdx, hc, hk]⟩

theorem childIdx_decomp (cs : List DNode) (i : Nat) (k : Nat)
    (h : childIdx cs i = some k) :
    ∃ (pre : List DNode) (m : DNode) (post : List DNode),
      cs = pre ++ m :: post ∧ pre.length = k ∧ m.nid = i := by
  induction cs generalizing k with
  | nil => simp [childIdx] at h
  | cons c cs ih =>
      by_cases hc : c.nid = i
      · simp only [childIdx, hc, if_true, Option.some.injEq] at h
        exact ⟨[], c, cs, by simp, by simp [← h], hc⟩
      · simp only [childIdx, hc, if_false] at h
        cases hk : childIdx cs i with
        | none => rw [hk] at h; simp at h
        | some k0 =>
            rw [hk] at h
            simp at h
            obtain ⟨pre, m, post, hcs, hlen, hm⟩ := ih k0 hk
            exact ⟨c :: pre, m, post, by simp [hcs], by simp [hlen, ← h], hm⟩

theorem count_idsOfList_decomp (pre : List DNode) (m : DNode) (post : List DNode)
    (x : Nat) :
    (idsOfList (pre ++ m :: post)).count x =
      (idsOfList pre).count x + (idsOf m).count x + (idsOfList post).count x := by
  rw [idsOfList_append]
  simp only [idsOfList, List.count_append]
  omega

theorem removeAt_decomp (pre : List DNode) (m : DNode) (post : List DNode) :
    ((pre ++ m :: post).take pre.length ++ (pre ++ m :: post).drop (pre.length + 1))
      = pre ++ post := by
  rw [List.take_left]
  have h1 : (pre ++ m :: post).drop (pre.length + 1)
      = ((pre ++ [m]) ++ post).drop (pre ++ [m]).length := by
    simp
  rw [h1, List.drop_left]

end DTree

mutual

theorem DTree.findNode_nid : ∀ (t : DNode) (i : Nat) (m : DNode),
    DTree.findNode t i = some m → m.nid = i
  | .text j s, i, m => by
      intro h
      unfold DTree.findNode at h
      split at h
      · cases h
        simpa [DNode.nid] using (by assumption : j = i)
      · cases h
  | .elem j tg cs, i, m => by
      intro h
      unfold DTree.findNode at h
      split at h
      · cases h
        simpa [DNode.nid] using (by assumption : j = i)
      · exact DTree.findNodeList_nid cs i m h

theorem DTree.findNodeList_nid : ∀ (cs : List DNode) (i : Nat) (m : DNode),
    DTree.findNodeList cs i = some m → m.nid = i
  | [], _, _ => by intro h; cases h
  | c :: cs, i, m => by
      intro h
      unfold DTree.findNodeList at h
      cases hc : DTree.findNode c i with
      | some q =>
          rw [hc] at h
          simp only [Option.orElse] at h
          cases h
          exact DTree.findNode_nid c i m hc
      | none =>
          rw [hc] at h
          simp only [Option.orElse] at h
          exact DTree.findNodeList_nid cs i m h

end

mutual

theorem DTree.findParent_elem : ∀ (t : DNode) (i : Nat) (p : DNode),
    DTree.findParent t i = some p → ∃ j tg cs, p = .elem j tg cs
  | .text _ _, i, p => by intro h; cases h
  | .elem j tg cs, i, p => by
      intro h
      unfold DTree.findParent at h
      split at h
      · cases h
        exact ⟨j, tg, cs, rfl⟩
      · exact DTree.findParentList_elem cs i p h

theorem DTree.findParentList_elem : ∀ (cs : List DNode) (i : Nat) (p : DNode),
    DTree.findParentList cs i = some p → ∃ j tg cs2, p = .elem j tg cs2
  | [], _, _ => by intro h; cases h
  | c :: cs, i, p => by
      intro h
      unfold DTree.findParentList at h
      cases hc : DTree.findParent c i with
      | some q =>
          rw [hc] at h
          simp only [Option.orElse] at h
          cases h
          exact DTree.findParent_elem c i p hc
      | none =>
          rw [hc] at h
          simp only [Option.orElse] at h
          exact DTree.findParentList_elem cs i p h

end

namespace DTree

theorem drop_succ_append (pre : List DNode) (m : DNode) (post : List DNode) :
    (pre ++ m :: post).drop (pre.length + 1) = post := by
  have h1 : (pre ++ m :: post).drop (pre.length + 1)
      = ((pre ++ [m]) ++ post).drop (pre ++ [m]).length := by
    simp
  rw [h1, List.drop_left]

end DTree

/-- `setCaretPosition` never changes the tree. -/
theorem tree_setCaretPosition (s : EState) (i pos : Nat) :
    (setCaretPosition s i pos).tree = s.tree := by
  unfold setCaretPosition
  repeat' split
  all_goals rfl

/-- Selecting a node never changes the tree. -/
theorem tree_selectNode (s : EState) (i : Nat) : (selectNode s i).tree = s.tree := by
  unfold DOMOperations.selectNode
  repeat' split
  all_goals rfl

/-- Selecting a node sets the range spanning exactly that node. -/
theorem sel_selectNode (s : EState) (i p k : Nat)
    (h : boundaryBefore s.tree i = some (p, k)) :
    (selectNode s i).sel = some ⟨p, k, p, k + 1⟩ := by
  unfold DOMOperations.selectNode
  rw [h]

/-- Deleting a one-node selection inside an element removes the covered
child. -/
theorem tree_deleteSelection_remove (s : EState) (p a : Nat) (tg : String)
    (cs : List DNode)
    (hsel : s.sel = some ⟨p, a, p, a + 1⟩)
    (hfind : DTree.findNode s.tree p = some (DNode.elem p tg cs)) :
    ((deleteSelection s).2).tree =
      DTree.updNode s.tree p (fun n =>
        DNode.elem n.nid (n.tag?.getD "") (n.children.take a ++ n.children.drop (a + 1))) := by
  unfold DOMOperations.deleteSelection DOMOperations.pushCmd DOMOperations.deleteSelectionEffect
  rw [hsel]
  dsimp only
  rw [if_neg (by simp [RangeS.collapsed])]
  rw [if_pos rfl]
  rw [hfind]

/-- Deleting a one-node selection collapses the caret at the removal point. -/
theorem sel_deleteSelection_remove (s : EState) (p a : Nat) (tg : String)
    (cs : List DNode)
    (hsel : s.sel = some ⟨p, a, p, a + 1⟩)
    (hfind : DTree.findNode s.tree p = some (DNode.elem p tg cs)) :
    ((deleteSelection s).2).sel = some (RangeS.caret p a) := by
  unfold DOMOperations.deleteSelection DOMOperations.pushCmd DOMOperations.deleteSelectionEffect
  rw [hsel]
  dsimp only
  rw [if_neg (by simp [RangeS.collapsed])]
  rw [if_pos rfl]
  rw [hfind]

/-- Updating at an identity different from an element's own applies inside
the child list. -/
theorem DTree.updNode_elem_ne (pj : Nat) (ptag : String) (cs : List DNode)
    (i : Nat) (f : DNode → DNode) (h : pj ≠ i) :
    DTree.updNode (DNode.elem pj ptag cs) i f
      = DNode.elem pj ptag (DTree.updNodeList cs i f) := by
  unfold DTree.updNode
  rw [if_neg (by simpa [DNode.nid] using h)]

/-- Updating an element at its own identity applies the mutation to it. -/
theorem DTree.updNode_elem_self (pj : Nat) (tg : String) (cs : List DNode)
    (f : DNode → DNode) :
    DTree.updNode (DNode.elem pj tg cs) pj f = f (DNode.elem pj tg cs) := by
  unfold DTree.updNode
  rw [if_pos (show (DNode.elem pj tg cs).nid = pj from rfl)]

/-- A node search at an element's own identity returns the element. -/
theorem DTree.findNode_elem_self (pj : Nat) (tg : String) (cs : List DNode) :
    DTree.findNode (DNode.elem pj tg cs) pj = some (DNode.elem pj tg cs) := by
  simp [DTree.findNode]

/-- Parent search at an element whose child list holds the identity returns
the element itself. -/
theorem DTree.findParent_elem_any (pj : Nat) (tg : String) (cs : List DNode)
    (i : Nat) (h : cs.any (fun c => c.nid = i) = true) :
    DTree.findParent (DNode.elem pj tg cs) i = some (DNode.elem pj tg cs) := by
  unfold DTree.findParent
  rw [if_pos h]

mutual

/-- A found parent's child list holds the searched identity. -/
theorem DTree.findParent_any : ∀ (t : DNode) (i j : Nat) (tg : String)
    (cs2 : List DNode),
    DTree.findParent t i = some (DNode.elem j tg cs2) →
    cs2.any (fun c => c.nid = i) = true
  | .text _ _, i, j, tg, cs2 => by intro h; cases h
  | .elem a atg acs, i, j, tg, cs2 => by
      intro h
      unfold DTree.findParent at h
      by_cases hany : acs.any (fun c => c.nid = i) = true
      · rw [if_pos hany] at h
        cases h
        exact hany
      · rw [if_neg hany] at h
        exact DTree.findParentList_any acs i j tg cs2 h

theorem DTree.findParentList_any : ∀ (cs : List DNode) (i j : Nat) (tg : String)
    (cs2 : List DNode),
    DTree.findParentList cs i = some (DNode.elem j tg cs2) →
    cs2.any (fun c => c.nid = i) = true
  | [], _, _, _, _ => by intro h; cases h
  | c :: cs, i, j, tg, cs2 => by
      intro h
      unfold DTree.findParentList at h
      cases hc : DTree.findParent c i with
      | some q =>
          rw [hc] at h
          simp only [Option.orElse] at h
          cases h
          exact DTree.findParent_any c i j tg cs2 hc
      | none =>
          rw [hc] at h
          simp only [Option.orElse] at h
          exact DTree.findParentList_any cs i j tg cs2 h

end

/-- The identities below a node are among the node's identities. -/
theorem DTree.count_idsOfList_children_le (n : DNode) (x : Nat) :
    ((DTree.idsOfList n.children).count x) ≤ (DTree.idsOf n).count x := by
  cases n with
  | text j s => simp [DNode.children, DTree.idsOfList]
  | elem j tg cs =>
      simp only [DNode.children, DTree.idsOf, List.count_cons]
      omega

theorem DTree.count_idsOfList_take_le (l : List DNode) (n x : Nat) :
    ((DTree.idsOfList (l.take n)).count x) ≤ (DTree.idsOfList l).count x := by
  conv_rhs => rw [← List.take_append_drop n l]
  rw [DTree.idsOfList_append, List.count_append]
  omega

theorem DTree.count_idsOfList_drop_le (l : List DNode) (n x : Nat) :
    ((DTree.idsOfList (l.drop n)).count x) ≤ (DTree.idsOfList l).count x := by
  conv_rhs => rw [← List.take_append_drop n l]
  rw [DTree.idsOfList_append, List.count_append]
  omega

/-- Keeping only the non-element children cannot create identities. -/
theorem DTree.count_filterOutElems_le (x : Nat) (n : DNode) :
    ((DTree.idsOf (DNode.elem n.nid (n.tag?.getD "")
        (n.children.filter (fun c => !c.isElem)))).count x)
      ≤ (DTree.idsOf n).count x := by
  cases n with
  | text j s =>
      simp [DNode.nid, DNode.tag?, DNode.children, DTree.idsOf, DTree.idsOfList]
  | elem j tg cs =>
      simp only [DNode.nid, DNode.tag?, DNode.children, Option.getD,
        DTree.idsOf, List.count_cons]
      have := DTree.count_idsOfList_filter_le cs (fun c => !c.isElem) x
      omega

/-- Appending children whose subtrees are free of `x` does not add
occurrences of `x`. -/
theorem DTree.count_appendChildren_le (x : Nat) (ms : List DNode)
    (h0 : (DTree.idsOfList ms).count x = 0) (n : DNode) :
    ((DTree.idsOf (DNode.elem n.nid (n.tag?.getD "") (n.children ++ ms))).count x)
      ≤ (DTree.idsOf n).count x := by
  cases n with
  | text j s =>
      simp only [DNode.nid, DNode.tag?, DNode.children, List.nil_append,
        DTree.idsOf, List.count_cons, List.count_nil, h0,
        List.count_singleton]
      omega
  | elem j tg cs =>
      simp only [DNode.nid, DNode.tag?, DNode.children, DTree.idsOf,
        DTree.idsOfList_append, List.count_append, List.count_cons, h0]
      omega

set_option maxHeartbeats 1600000 in
/-- The mutate branch of `mergeAdjacentContainers`: after the children of the
second container are spliced into the first and the two ranges are deleted,
the reference paragraph is no longer attached to the tree.  The hypothesis
`Nodup` states that node identities are physically distinct, as DOM nodes
are. -/
theorem mergeMutate_removes_reference (s : EState) (ref : Nat) (X Y : DNode)
    (hnd : (DTree.idsOf s.tree).Nodup)
    (hprev : DOMOperations.getPreviousSibling s ref = some X)
    (hnext : DOMOperations.getNextSibling s ref = some Y) :
    DTree.findNode
      ((deleteSelection (selectNode
        ((deleteSelection (selectNode
          { s with tree := (DTree.updNode
              (DTree.updNode s.tree Y.nid (fun n =>
                DNode.elem n.nid (n.tag?.getD "")
                  (n.children.filter (fun c => !c.isElem))))
              X.nid (fun n =>
                DNode.elem n.nid (n.tag?.getD "")
                  (n.children ++ Y.children.filter (fun c => c.isElem)))) }
          ref)).2) Y.nid)).2).tree ref = none := by
  have hp := hprev
  unfold DOMOperations.getPreviousSibling DTree.prevElemSibling at hp
  have hq := hnext
  unfold DOMOperations.getNextSibling DTree.nextElemSibling at hq
  cases hfp : DTree.findParent s.tree ref with
  | none =>
      rw [hfp] at hp
      simp at hp
  | some P =>
  obtain ⟨pj, ptag, cs, rfl⟩ := DTree.findParent_elem s.tree ref P hfp
  have hanycs : cs.any (fun c => c.nid = ref) = true :=
    DTree.findParent_any s.tree ref pj ptag cs hfp
  obtain ⟨k, hk⟩ := DTree.childIdx_isSome_of_any cs ref hanycs
  rw [hfp] at hp hq
  dsimp only [DNode.children] at hp hq
  rw [hk] at hp hq
  dsimp only at hp hq
  obtain ⟨pre, m, post, hcs, hlen, hmnid⟩ := DTree.childIdx_decomp cs ref k hk
  have hXtake : X ∈ cs.take k := List.mem_reverse.mp (List.mem_of_find?_eq_some hp)
  have hXpre : X ∈ pre := by
    rw [hcs, ← hlen, List.take_left] at hXtake
    exact hXtake
  have hYdrop : Y ∈ cs.drop (k + 1) := List.mem_of_find?_eq_some hq
  have hYpost : Y ∈ post := by
    rw [hcs, ← hlen, DTree.drop_succ_append] at hYdrop
    exact hYdrop
  have hXcs : X ∈ cs := by
    rw [hcs]
    exact List.mem_append.mpr (Or.inl hXpre)
  have hYcs : Y ∈ cs := by
    rw [hcs]
    exact List.mem_append.mpr (Or.inr (List.mem_cons.mpr (Or.inr hYpost)))
  have hmcs : m ∈ cs := by
    rw [hcs]
    exact List.mem_append.mpr (Or.inr (List.mem_cons.mpr (Or.inl rfl)))
  obtain ⟨C, hC⟩ := DTree.findParent_decomp s.tree ref (DNode.elem pj ptag cs) hfp
  have hsplit : ∀ x : Nat,
      (TCtx.ids C).count x + ((DTree.idsOfList cs).count x
        + if pj = x then 1 else 0) ≤ 1 := by
    intro x
    have h := List.nodup_iff_count_le_one.mp hnd x
    rw [hC, TCtx.count_idsOf_fill] at h
    simp only [DTree.idsOf, List.count_cons, beq_iff_eq] at h
    omega
  have hrefcs : 1 ≤ (DTree.idsOfList cs).count ref :=
    List.count_pos_iff.mpr (by
      have h := DTree.nid_mem_idsOfList hmcs
      rwa [hmnid] at h)
  have hYnidcs : 1 ≤ (DTree.idsOfList cs).count Y.nid :=
    List.count_pos_iff.mpr (DTree.nid_mem_idsOfList hYcs)
  have hXnidcs : 1 ≤ (DTree.idsOfList cs).count X.nid :=
    List.count_pos_iff.mpr (DTree.nid_mem_idsOfList hXcs)
  have hrefC : ref ∉ TCtx.ids C :=
    List.count_eq_zero.mp (by have h := hsplit ref; omega)
  have hpjref : pj ≠ ref := by
    intro he
    have h := hsplit ref
    rw [if_pos he] at h
    omega
  have hcsref1 : (DTree.idsOfList cs).count ref ≤ 1 := by
    have h := hsplit ref
    omega
  have hYC : Y.nid ∉ TCtx.ids C :=
    List.count_eq_zero.mp (by have h := hsplit Y.nid; omega)
  have hXC : X.nid ∉ TCtx.ids C :=
    List.count_eq_zero.mp (by have h := hsplit X.nid; omega)
  have hpjC : pj ∉ TCtx.ids C := by
    have h := hsplit pj
    rw [if_pos rfl] at h
    exact List.count_eq_zero.mp (by omega)
  have hYpj : Y.nid ≠ pj := by
    intro he
    have hc : 1 ≤ (DTree.idsOfList cs).count pj := he ▸ hYnidcs
    have h := hsplit pj
    rw [if_pos rfl] at h
    omega
  have hXpj : X.nid ≠ pj := by
    intro he
    have hc : 1 ≤ (DTree.idsOfList cs).count pj := he ▸ hXnidcs
    have h := hsplit pj
    rw [if_pos rfl] at h
    omega
  have hpostref : (DTree.idsOfList post).count ref = 0 := by
    have h := hcsref1
    rw [hcs, DTree.count_idsOfList_decomp] at h
    have hm1 : 1 ≤ (DTree.idsOf m).count ref :=
      List.count_pos_iff.mpr (by
        have h2 := DTree.nid_mem_idsOf m
        rwa [hmnid] at h2)
    omega
  have hrefY : ref ∉ DTree.idsOf Y := by
    intro hin
    have h1 : ref ∈ DTree.idsOfList post := DTree.mem_idsOf_of_mem_idsOfList hYpost hin
    have h2 := List.count_pos_iff.mpr h1
    omega
  have hmoved0 : (DTree.idsOfList (Y.children.filter (fun c => c.isElem))).count ref = 0 := by
    have h1 := DTree.count_idsOfList_filter_le Y.children (fun c => c.isElem) ref
    have h2 := DTree.count_idsOfList_children_le Y ref
    have h3 : (DTree.idsOf Y).count ref = 0 := List.count_eq_zero.mpr hrefY
    omega
  -- the spliced state
  set cs2 : List DNode := DTree.updNodeList
      (DTree.updNodeList cs Y.nid (fun n =>
        DNode.elem n.nid (n.tag?.getD "") (n.children.filter (fun c => !c.isElem))))
      X.nid (fun n =>
        DNode.elem n.nid (n.tag?.getD "")
          (n.children ++ Y.children.filter (fun c => c.isElem))) with hcs2def
  have hT2 : DTree.updNode
      (DTree.updNode s.tree Y.nid (fun n =>
        DNode.elem n.nid (n.tag?.getD "") (n.children.filter (fun c => !c.isElem))))
      X.nid (fun n =>
        DNode.elem n.nid (n.tag?.getD "")
          (n.children ++ Y.children.filter (fun c => c.isElem)))
      = TCtx.fill C (DNode.elem pj ptag cs2) := by
    rw [hcs2def, hC, TCtx.updNode_fill C _ Y.nid _ hYC,
        DTree.updNode_elem_ne pj ptag cs Y.nid _ (Ne.symm hYpj),
        TCtx.updNode_fill C _ X.nid _ hXC,
        DTree.updNode_elem_ne pj ptag _ X.nid _ (Ne.symm hXpj)]
  have hmap2 : cs2.map DNode.nid = cs.map DNode.nid := by
    rw [hcs2def, DTree.updNodeList_map_nid, DTree.updNodeList_map_nid]
    all_goals exact fun n => rfl
  have hany2 : cs2.any (fun c => c.nid = ref) = true := by
    rw [DTree.any_nid_congr cs2 cs ref hmap2]
    exact hanycs
  have hk2 : DTree.childIdx cs2 ref = some k := by
    rw [DTree.childIdx_congr cs2 cs ref hmap2]
    exact hk
  have hcount2 : (DTree.idsOfList cs2).count ref ≤ 1 := by
    have hb1 : ∀ n : DNode, ((DTree.idsOf (DNode.elem n.nid (n.tag?.getD "")
        (n.children ++ Y.children.filter (fun c => c.isElem)))).count ref)
          ≤ (DTree.idsOf n).count ref :=
      DTree.count_appendChildren_le ref _ hmoved0
    have h1 := DTree.count_updNodeList_le
      (DTree.updNodeList cs Y.nid (fun n =>
        DNode.elem n.nid (n.tag?.getD "") (n.children.filter (fun c => !c.isElem))))
      X.nid _ ref hb1
    have h2 := DTree.count_updNodeList_le cs Y.nid _ ref
      (DTree.count_filterOutElems_le ref)
    rw [hcs2def]
    omega
  -- the four-step pipeline
  set s0 : EState := { s with tree := (DTree.updNode
      (DTree.updNode s.tree Y.nid (fun n =>
        DNode.elem n.nid (n.tag?.getD "") (n.children.filter (fun c => !c.isElem))))
      X.nid (fun n =>
        DNode.elem n.nid (n.tag?.getD "")
          (n.children ++ Y.children.filter (fun c => c.isElem)))) } with hs0
  set s1 : EState := selectNode s0 ref with hs1
  set s2 : EState := (deleteSelection s1).2 with hs2
  set s3 : EState := selectNode s2 Y.nid with hs3
  set s4 : EState := (deleteSelection s3).2 with hs4
  have hs0tree : s0.tree = TCtx.fill C (DNode.elem pj ptag cs2) := by
    rw [hs0]
    exact hT2
  have hbb0 : boundaryBefore s0.tree ref = some (pj, k) := by
    rw [hs0tree]
    unfold DOMOperations.boundaryBefore
    rw [TCtx.findParent_fill C (DNode.elem pj ptag cs2) ref hrefC
          (by simp only [DNode.nid]; exact Ne.symm hpjref),
        DTree.findParent_elem_any pj ptag cs2 ref hany2]
    show (DTree.childIdx cs2 ref).map (fun k => (pj, k)) = some (pj, k)
    rw [hk2]
    rfl
  have hs1sel : s1.sel = some ⟨pj, k, pj, k + 1⟩ := by
    rw [hs1]
    exact sel_selectNode s0 ref pj k hbb0
  have hs1tree : s1.tree = TCtx.fill C (DNode.elem pj ptag cs2) := by
    rw [hs1, tree_selectNode]
    exact hs0tree
  have hfind1 : DTree.findNode s1.tree pj = some (DNode.elem pj ptag cs2) := by
    rw [hs1tree, TCtx.findNode_fill C _ pj hpjC, DTree.findNode_elem_self]
  set cs3 : List DNode := cs2.take k ++ cs2.drop (k + 1) with hcs3def
  have hs2tree : s2.tree = TCtx.fill C (DNode.elem pj ptag cs3) := by
    rw [hs2, tree_deleteSelection_remove s1 pj k ptag cs2 hs1sel hfind1,
        hs1tree, TCtx.updNode_fill C _ pj _ hpjC, DTree.updNode_elem_self]
    rfl
  have hlist : cs.take k ++ cs.drop (k + 1) = pre ++ post := by
    rw [hcs, ← hlen]
    exact DTree.removeAt_decomp pre m post
  have hmap3 : cs3.map DNode.nid = (pre ++ post).map DNode.nid := by
    calc cs3.map DNode.nid
        = (cs2.map DNode.nid).take k ++ (cs2.map DNode.nid).drop (k + 1) := by
          rw [hcs3def, List.map_append, List.map_take, List.map_drop]
      _ = (cs.map DNode.nid).take k ++ (cs.map DNode.nid).drop (k + 1) := by
          rw [hmap2]
      _ = (cs.take k ++ cs.drop (k + 1)).map DNode.nid := by
          rw [List.map_append, List.map_take, List.map_drop]
      _ = (pre ++ post).map DNode.nid := by rw [hlist]
  have hany3 : cs3.any (fun c => c.nid = Y.nid) = true := by
    rw [DTree.any_nid_congr cs3 (pre ++ post) Y.nid hmap3]
    exact List.any_eq_true.mpr ⟨Y, List.mem_append.mpr (Or.inr hYpost), by simp⟩
  obtain ⟨k3, hk3⟩ := DTree.childIdx_isSome_of_any cs3 Y.nid hany3
  have hbb3 : boundaryBefore s2.tree Y.nid = some (pj, k3) := by
    rw [hs2tree]
    unfold DOMOperations.boundaryBefore
    rw [TCtx.findParent_fill C (DNode.elem pj ptag cs3) Y.nid hYC
          (by simp only [DNode.nid]; exact hYpj),
        DTree.findParent_elem_any pj ptag cs3 Y.nid hany3]
    show (DTree.childIdx cs3 Y.nid).map (fun k => (pj, k)) = some (pj, k3)
    rw [hk3]
    rfl
  have hs3sel : s3.sel = some ⟨pj, k3, pj, k3 + 1⟩ := by
    rw [hs3]
    exact sel_selectNode s2 Y.nid pj k3 hbb3
  have hs3tree : s3.tree = TCtx.fill C (DNode.elem pj ptag cs3) := by
    rw [hs3, tree_selectNode]
    exact hs2tree
  have hfind3 : DTree.findNode s3.tree pj = some (DNode.elem pj ptag cs3) := by
    rw [hs3tree, TCtx.findNode_fill C _ pj hpjC, DTree.findNode_elem_self]
  have hs4tree : s4.tree = TCtx.fill C (DNode.elem pj ptag
      (cs3.take k3 ++ cs3.drop (k3 + 1))) := by
    rw [hs4, tree_deleteSelection_remove s3 pj k3 ptag cs3 hs3sel hfind3,
        hs3tree, TCtx.updNode_fill C _ pj _ hpjC, DTree.updNode_elem_self]
    rfl
  have hcount3 : (DTree.idsOfList cs3).count ref = 0 := by
    obtain ⟨pre2, m2, post2, hcs2d, hlen2, hm2nid⟩ := DTree.childIdx_decomp cs2 ref k hk2
    have hsplit2 : cs3 = pre2 ++ post2 := by
      rw [hcs3def, hcs2d, ← hlen2]
      exact DTree.removeAt_decomp pre2 m2 post2
    have hc2 : (DTree.idsOfList cs2).count ref
        = (DTree.idsOfList pre2).count ref + (DTree.idsOf m2).count ref
          + (DTree.idsOfList post2).count ref := by
      rw [hcs2d]
      exact DTree.count_idsOfList_decomp pre2 m2 post2 ref
    have hm2 : 1 ≤ (DTree.idsOf m2).count ref :=
      List.count_pos_iff.mpr (by
        have h2 := DTree.nid_mem_idsOf m2
        rwa [hm2nid] at h2)
    rw [hsplit2, DTree.idsOfList_append, List.count_append]
    omega
  have hcount4 : (DTree.idsOfList (cs3.take k3 ++ cs3.drop (k3 + 1))).count ref = 0 := by
    have h1 := DTree.count_idsOfList_take_le cs3 k3 ref
    have h2 := DTree.count_idsOfList_drop_le cs3 (k3 + 1) ref
    rw [DTree.idsOfList_append, List.count_append]
    omega
  rw [hs4tree, TCtx.findNode_fill C _ ref hrefC]
  unfold DTree.findNode
  rw [if_neg hpjref]
  exact DTree.findNodeList_not_mem _ ref (by
    intro hin
    have h2 := List.count_pos_iff.mpr hin
    omega)

/-- A detached reference makes `mergeAdjacentContainers` a no-op. -/
theorem merge_detached_noop (s : EState) (ref : Nat)
    (h : DTree.findNode s.tree ref = none) :
    MarkdownBlockEditor.mergeAdjacentContainers s ref false = s := by
  unfold MarkdownBlockEditor.mergeAdjacentContainers
  simp [h]

set_option maxHeartbeats 1600000 in
/-- One run of `mergeAdjacentContainers` either detaches the reference
paragraph from the tree or leaves the state untouched. -/
theorem mergeAdjacentContainers_detaches_or_noop (s : EState) (ref : Nat)
    (hnd : (DTree.idsOf s.tree).Nodup) :
    DTree.findNode (MarkdownBlockEditor.mergeAdjacentContainers s ref false).tree ref = none ∨
    MarkdownBlockEditor.mergeAdjacentContainers s ref false = s := by
  cases hfn : DTree.findNode s.tree ref with
  | none => exact Or.inr (merge_detached_noop s ref hfn)
  | some cur =>
    by_cases hg : (DOMOperations.getTagName (some cur) ≠ some "P"
        ∨ isContainerElement (DOMOperations.getParentElement s ref) = true
        ∨ ¬ isBlockEmpty (some cur) = true)
    · right
      unfold MarkdownBlockEditor.mergeAdjacentContainers
      simp only [Bool.false_eq_true, if_false]
      rw [hfn]
      dsimp only
      rw [if_pos hg]
    · push_neg at hg
      obtain ⟨hgtag, hgcont, hgempty⟩ := hg
      cases hprev : DOMOperations.getPreviousSibling s ref with
      | none =>
          right
          unfold MarkdownBlockEditor.mergeAdjacentContainers
          simp only [Bool.false_eq_true, if_false]
          rw [hfn]
          dsimp only
          rw [if_neg (by simp [hgtag, hgcont, hgempty])]
          rw [hprev]
      | some X =>
        cases hnext : DOMOperations.getNextSibling s ref with
        | none =>
            right
            unfold MarkdownBlockEditor.mergeAdjacentContainers
            simp only [Bool.false_eq_true, if_false]
            rw [hfn]
            dsimp only
            rw [if_neg (by simp [hgtag, hgcont, hgempty])]
            rw [hprev, hnext]
        | some Y =>
          by_cases hcond : (isContainerElement (some X) = true
              ∧ isContainerElement (some Y) = true
              ∧ DOMOperations.getTagName (some X) = DOMOperations.getTagName (some Y))
          · left
            unfold MarkdownBlockEditor.mergeAdjacentContainers
            simp only [Bool.false_eq_true, if_false]
            rw [hfn]
            dsimp only
            rw [if_neg (by simp [hgtag, hgcont, hgempty])]
            rw [hprev, hnext]
            dsimp only
            rw [if_pos hcond]
            have hmain := mergeMutate_removes_reference s ref X Y hnd hprev hnext
            cases holc : DTree.lastElementChild X with
            | none => exact hmain
            | some olc =>
                dsimp only
                by_cases hb : isBlockElement (some olc) = true
                · rw [if_pos hb, tree_setCaretPosition]
                  exact hmain
                · rw [if_neg hb]
                  exact hmain
          · right
            unfold MarkdownBlockEditor.mergeAdjacentContainers
            simp only [Bool.false_eq_true, if_false]
            rw [hfn]
            dsimp only
            rw [if_neg (by simp [hgtag, hgcont, hgempty])]
            rw [hprev, hnext]
            dsimp only
            rw [if_neg hcond]

/-- C6: adjacent-container coalescing is idempotent.  For every editor state
whose node identities are distinct (as physical DOM nodes are) and every
reference element, running `mergeAdjacentContainers` twice in a row produces
the same tree as running it once: the first run either leaves the state
untouched or detaches the reference paragraph, and on a detached reference
the second run is a no-op. -/
theorem claim6_coalesce_idempotent (s : EState) (ref : Nat) (ps : Bool)
    (hnd : (DTree.idsOf s.tree).Nodup) :
    (MarkdownBlockEditor.mergeAdjacentContainers
        (MarkdownBlockEditor.mergeAdjacentContainers s ref ps) ref ps).tree
      = (MarkdownBlockEditor.mergeAdjacentContainers s ref ps).tree := by
  cases ps with
  | true => rfl
  | false =>
      rcases mergeAdjacentContainers_detaches_or_noop s ref hnd with h | h
      · rw [merge_detached_noop _ ref h]
      · rw [h, h]

/-- Witness for C6 at the concrete list-coalescing state. -/
theorem claim6_witness :
    (DTree.idsOf stateListCoalesce.tree).Nodup ∧
    (MarkdownBlockEditor.mergeAdjacentContainers
        (MarkdownBlockEditor.mergeAdjacentContainers stateListCoalesce 4 false) 4 false).tree
      = (MarkdownBlockEditor.mergeAdjacentContainers stateListCoalesce 4 false).tree :=
  ⟨by decide, claim6_coalesce_idempotent stateListCoalesce 4 false (by decide)⟩
